import Mathlib

/-!
Shallow embedding of the contention-safe resource allocation engine of the
airline check-in system (`src/services/checkinService.ts`, the administrative
reset handler of `src/app.ts`, and the SQL schema's uniqueness constraints),
together with theorems settling the specification's claims about it.

The database state is modelled as lists of rows; each Prisma query or update
of the source is translated into an explicit function on that state.  The
safe policy's interactive transaction is modelled by running its body and
discarding the intermediate state on error (rollback); the unsafe policy's
statements commit one by one, so its intermediate states persist.
-/

namespace AirlineCheckin

/-- A row of the `seats` table (migration `part_000`): identity, pool
(flight), ordering key `seatNumber` (TEXT, ordered lexicographically),
availability flag, and fields opaque to the engine. -/
structure Seat where
  id : Nat
  flightId : Nat
  seatNumber : String
  seatType : String
  isAvailable : Bool
  price : Nat
deriving DecidableEq

/-- A row of the `bookings` table (migration `part_001`): requester reference
`pnr` (unique), pool, optional bound seat (unique when non-null, constraint
`bookings_seatId_key`), and the checked-in flag. -/
structure Booking where
  id : Nat
  pnr : String
  flightId : Nat
  passengerId : Nat
  seatId : Option Nat
  checkedIn : Bool
  status : String
deriving DecidableEq

/-- A row of the `flights` table; only the fields the modelled operations
read. -/
structure Flight where
  id : Nat
  flightNumber : String
  totalSeats : Nat
deriving DecidableEq

/-- The durable store: the three tables the engine touches. -/
structure DBState where
  flights : List Flight
  seats : List Seat
  bookings : List Booking
deriving DecidableEq

/-- Error kinds of the specification's taxonomy, as raised by the source
(`throw new Error(...)` and the Prisma error codes P2025 / P2002). -/
inductive ErrKind where
  | unknownRequester
  | poolExhausted
  | exhaustedCandidates
  | constraintViolation
  | notFound
deriving DecidableEq

/-- An error: its kind together with the message text of the source. -/
structure Err where
  kind : ErrKind
  msg : String
deriving DecidableEq

/-- The object returned by a successful allocation in the source. -/
structure AssignResult where
  success : Bool
  seatNumber : String
  seatId : Nat
  method : String
  attemptsNeeded : Option Nat
deriving DecidableEq

/-- `prisma.booking.findUnique(where: pnr)`. -/
def findBooking (db : DBState) (pnr : String) : Option Booking :=
  db.bookings.find? (fun b => b.pnr == pnr)

/-- `prisma.seat.findUnique(where: id)` — the re-read inside the unsafe
loop. -/
def findSeat (db : DBState) (sid : Nat) : Option Seat :=
  db.seats.find? (fun s => s.id == sid)

/-- Byte comparison of two characters. -/
def charLe (a b : Char) : Bool :=
  decide (a.toNat ≤ b.toNat)

theorem charLe_eq_of_both {a b : Char} (h1 : charLe a b = true) (h2 : charLe b a = true) :
    a = b := by
  simp only [charLe, decide_eq_true_eq] at h1 h2
  exact Char.ext (UInt32.toNat.inj (Nat.le_antisymm h1 h2))

/-- Lexicographic comparison of two character lists. -/
def strLeAux : List Char → List Char → Bool
  | [], _ => true
  | _ :: _, [] => false
  | a :: as, b :: bs => if a = b then strLeAux as bs else charLe a b

/-- Lexicographic comparison of two strings — the order the store's
`ORDER BY` on the TEXT ordering key produces. -/
def strLe (a b : String) : Bool :=
  strLeAux a.data b.data

/-- Comparison on the ordering key, `ORDER BY "seatNumber" ASC`. -/
def seatLe (a b : Seat) : Prop :=
  strLe a.seatNumber b.seatNumber = true

instance : DecidableRel seatLe := fun a b =>
  inferInstanceAs (Decidable (strLe a.seatNumber b.seatNumber = true))

theorem strLeAux_total : ∀ u v : List Char, strLeAux u v = true ∨ strLeAux v u = true
  | [], _ => Or.inl rfl
  | _ :: _, [] => Or.inr rfl
  | a :: as, b :: bs => by
    by_cases hab : a = b
    · subst hab
      simpa [strLeAux] using strLeAux_total as bs
    · rcases Nat.le_total a.toNat b.toNat with h | h
      · exact Or.inl (by simp [strLeAux, hab, charLe, h])
      · exact Or.inr (by simp [strLeAux, Ne.symm hab, charLe, h])

theorem strLeAux_trans : ∀ u v w : List Char,
    strLeAux u v = true → strLeAux v w = true → strLeAux u w = true
  | [], _, _ => by intro _ _; rfl
  | _ :: _, [], _ => by intro h _; exact absurd h (by simp [strLeAux])
  | _ :: _, _ :: _, [] => by intro _ h; exact absurd h (by simp [strLeAux])
  | a :: as, b :: bs, c :: cs => by
    intro h1 h2
    by_cases hab : a = b <;> by_cases hbc : b = c
    · subst hab; subst hbc
      simp only [strLeAux, if_pos rfl] at h1 h2 ⊢
      exact strLeAux_trans as bs cs h1 h2
    · subst hab
      simpa [strLeAux, hbc] using h2
    · subst hbc
      simpa [strLeAux, hab] using h1
    · simp only [strLeAux, if_neg hab] at h1
      simp only [strLeAux, if_neg hbc] at h2
      simp only [charLe, decide_eq_true_eq] at h1 h2
      have hac : a ≠ c := by
        intro h
        subst h
        exact hbc (Char.ext (UInt32.toNat.inj (Nat.le_antisymm h2 h1)))
      simp only [strLeAux, if_neg hac, charLe, decide_eq_true_eq]
      exact Nat.le_trans h1 h2

theorem strLeAux_antisymm : ∀ u v : List Char,
    strLeAux u v = true → strLeAux v u = true → u = v
  | [], [] => by intro _ _; rfl
  | [], _ :: _ => by intro _ h; exact absurd h (by simp [strLeAux])
  | _ :: _, [] => by intro h _; exact absurd h (by simp [strLeAux])
  | a :: as, b :: bs => by
    intro h1 h2
    by_cases hab : a = b
    · subst hab
      simp only [strLeAux, if_pos rfl] at h1 h2
      rw [strLeAux_antisymm as bs h1 h2]
    · simp only [strLeAux, if_neg hab, charLe, decide_eq_true_eq] at h1
      simp only [strLeAux, if_neg (Ne.symm hab), charLe, decide_eq_true_eq] at h2
      exact absurd (Char.ext (UInt32.toNat.inj (Nat.le_antisymm h1 h2))) hab

theorem strLe_total (a b : String) : strLe a b = true ∨ strLe b a = true :=
  strLeAux_total a.data b.data

theorem strLe_trans {a b c : String} (h1 : strLe a b = true) (h2 : strLe b c = true) :
    strLe a c = true :=
  strLeAux_trans a.data b.data c.data h1 h2

theorem strLe_antisymm {a b : String} (h1 : strLe a b = true) (h2 : strLe b a = true) :
    a = b := by
  cases a; cases b
  exact congrArg String.mk (strLeAux_antisymm _ _ h1 h2)

instance : IsTotal Seat seatLe :=
  ⟨fun a b => strLe_total a.seatNumber b.seatNumber⟩

instance : IsTrans Seat seatLe :=
  ⟨fun _ _ _ => strLe_trans⟩

/-- The available seats of a pool: `WHERE flightId = fid AND isAvailable`. -/
def seatsPool (db : DBState) (fid : Nat) : List Seat :=
  db.seats.filter (fun s => s.flightId == fid && s.isAvailable)

/-- Number of available seats of a pool. -/
def availCount (db : DBState) (fid : Nat) : Nat :=
  (seatsPool db fid).length

/-- `prisma.seat.findMany(where: flightId, isAvailable, orderBy seatNumber
asc, take: k)` — the unsafe policy's candidate query (k = 5). -/
def availableSeatsQuery (db : DBState) (fid : Nat) (k : Nat) : List Seat :=
  (List.insertionSort seatLe (seatsPool db fid)).take k

/-- The safe policy's `SELECT ... WHERE "flightId' = fid AND "isAvailable" =
true ORDER BY "seatNumber" ASC LIMIT 1 FOR UPDATE SKIP LOCKED`: the least
available seat of the pool whose row is not already locked by a concurrent
transaction. -/
def selectSkipLocked (db : DBState) (fid : Nat) (locked : List Nat) : Option Seat :=
  (List.insertionSort seatLe
    (db.seats.filter
      (fun s => s.flightId == fid && s.isAvailable && !(locked.contains s.id)))).head?

/-- JS `flightId || booking.flightId`: an absent or falsy (0) selector falls
back to the booking's flight. -/
def resolveTargetFlight (flightId : Option Nat) (b : Booking) : Nat :=
  match flightId with
  | some n => if n = 0 then b.flightId else n
  | none => b.flightId

/-- Flip one seat's availability to false: the seat-row UPDATE shared by both
policies (`data: isAvailable: false`). -/
def flipSeatUnavailable (seats : List Seat) (sid : Nat) : List Seat :=
  seats.map (fun t => if t.id == sid then { t with isAvailable := false } else t)

/-- `prisma.seat.update(where: id, isAvailable: true, ...)` — the unsafe
policy's conditional update; Prisma raises P2025 when no row matches the
`where`. -/
def updateSeatIfAvailable (db : DBState) (sid : Nat) : Except Err DBState :=
  match findSeat db sid with
  | none => .error ⟨.notFound, "Record to update not found."⟩
  | some s =>
    if s.isAvailable then
      .ok { db with seats := flipSeatUnavailable db.seats sid }
    else
      .error ⟨.notFound, "Record to update not found."⟩

/-- `tx.seat.update(where: id, ...)` — the safe policy's unconditional
update of the locked row. -/
def updateSeatUnavailable (db : DBState) (sid : Nat) : Except Err DBState :=
  match findSeat db sid with
  | none => .error ⟨.notFound, "Record to update not found."⟩
  | some _ => .ok { db with seats := flipSeatUnavailable db.seats sid }

/-- `booking.update(where: pnr, data: seatId, checkedIn: true)`.  The store
rejects the write with P2002 when the unique index `bookings_seatId_key`
already holds this seat for another booking. -/
def updateBookingSeat (db : DBState) (pnr : String) (sid : Nat) : Except Err DBState :=
  match findBooking db pnr with
  | none => .error ⟨.notFound, "Record to update not found."⟩
  | some _ =>
    if db.bookings.any (fun b => b.pnr != pnr && b.seatId == some sid) then
      .error ⟨.constraintViolation, "Unique constraint failed on the fields: seatId"⟩
    else
      .ok { db with
        bookings := db.bookings.map
          (fun b => if b.pnr == pnr then { b with seatId := some sid, checkedIn := true } else b) }

/-- The per-candidate loop of `selectNextAvailableSeatUnsafe` (source lines
87–142): re-read the seat, skip it when no longer available, issue the
conditional seat update then the binding write; the `catch` of the source
turns any failure of the two writes into `continue`, keeping whatever state
the statements that did succeed have already committed. -/
def unsafeLoop (db : DBState) (pnr : String) (i : Nat) :
    List Seat → DBState × Except Err AssignResult
  | [] =>
    (db, .error ⟨.exhaustedCandidates,
      "Unable to assign any seat - all attempts failed due to concurrent access"⟩)
  | seat :: rest =>
    match findSeat db seat.id with
    | none => unsafeLoop db pnr (i + 1) rest
    | some sc =>
      if sc.isAvailable then
        match updateSeatIfAvailable db seat.id with
        | .error _ => unsafeLoop db pnr (i + 1) rest
        | .ok db1 =>
          match updateBookingSeat db1 pnr seat.id with
          | .error _ => unsafeLoop db1 pnr (i + 1) rest
          | .ok db2 =>
            (db2, .ok ⟨true, seat.seatNumber, seat.id, "unsafe", some (i + 1)⟩)
      else
        unsafeLoop db pnr (i + 1) rest

/-- `selectNextAvailableSeatUnsafe(pnr, flightId?)` — the race-prone policy:
plain reads, no transaction, statements commit one by one. -/
def selectNextAvailableSeatUnsafe (db : DBState) (pnr : String) (flightId : Option Nat) :
    DBState × Except Err AssignResult :=
  match findBooking db pnr with
  | none => (db, .error ⟨.unknownRequester, "Invalid PNR"⟩)
  | some booking =>
    let targetFlightId := resolveTargetFlight flightId booking
    let availableSeats := availableSeatsQuery db targetFlightId 5
    if availableSeats.isEmpty then
      (db, .error ⟨.poolExhausted, "No seats available on this flight"⟩)
    else
      unsafeLoop db pnr 0 availableSeats

/-- The body of the safe policy's interactive transaction (source lines
154–211), with `locked` the rows held by concurrent transactions (empty for
a sequential call). -/
def safeTxBody (db : DBState) (pnr : String) (flightId : Option Nat) (locked : List Nat) :
    Except Err (DBState × AssignResult) :=
  match findBooking db pnr with
  | none => .error ⟨.unknownRequester, "Invalid PNR"⟩
  | some booking =>
    let targetFlightId := resolveTargetFlight flightId booking
    match selectSkipLocked db targetFlightId locked with
    | none =>
      .error ⟨.poolExhausted,
        "No seats available on this flight or all seats are being processed"⟩
    | some seat =>
      match updateSeatUnavailable db seat.id with
      | .error e => .error e
      | .ok db1 =>
        match updateBookingSeat db1 pnr seat.id with
        | .error e => .error e
        | .ok db2 => .ok (db2, ⟨true, seat.seatNumber, seat.id, "safe", none⟩)

/-- `selectNextAvailableSeatSafe(pnr, flightId?)`: the transaction body under
`prisma.$transaction` — on any error the transaction rolls back, so the
store is left exactly as it was. -/
def selectNextAvailableSeatSafe (db : DBState) (pnr : String) (flightId : Option Nat) :
    DBState × Except Err AssignResult :=
  match safeTxBody db pnr flightId [] with
  | .error e => (db, .error e)
  | .ok (db2, r) => (db2, .ok r)

/-- The `POST /admin/reset-all-seats` handler of `src/app.ts`: one
transaction setting every seat available and clearing every booking's seat
and checked-in flag, returning the seat count. -/
def resetAllSeats (db : DBState) : DBState × Nat :=
  let db2 : DBState :=
    { db with
      seats := db.seats.map (fun s => { s with isAvailable := true }),
      bookings := db.bookings.map (fun b => { b with seatId := none, checkedIn := false }) }
  (db2, db2.seats.length)

/-- The seat-map view returned by `getFlightSeatMap`. -/
structure SeatMap where
  flightNumber : String
  totalSeats : Nat
  availableCount : Nat
  seats : List Seat
deriving DecidableEq

/-- `getFlightSeatMap(flightNumber)` (source lines 225–248). -/
def getFlightSeatMap (db : DBState) (flightNumber : String) : Except Err SeatMap :=
  match db.flights.find? (fun f => f.flightNumber == flightNumber) with
  | none => .error ⟨.notFound, "Flight not found"⟩
  | some f =>
    let seats := List.insertionSort seatLe (db.seats.filter (fun s => s.flightId == f.id))
    .ok ⟨f.flightNumber, f.totalSeats,
      (seats.filter (fun s => s.isAvailable)).length, seats⟩

/-! ## Wellformedness and the data-model invariant -/

/-- Seat ids are unique (`seats_pkey`). -/
def SeatIdsNodup (db : DBState) : Prop :=
  (db.seats.map Seat.id).Nodup

/-- Requester references are unique (`bookings_pnr_key`). -/
def PnrsNodup (db : DBState) : Prop :=
  (db.bookings.map Booking.pnr).Nodup

/-- At most one live binding references a given seat (`bookings_seatId_key`). -/
def AtMostOneBinding (db : DBState) : Prop :=
  (db.bookings.filterMap Booking.seatId).Nodup

/-- A seat's availability flag is false iff a live binding references it. -/
def InvariantIffBound (db : DBState) : Prop :=
  ∀ s ∈ db.seats, (s.isAvailable = false ↔ ∃ b ∈ db.bookings, b.seatId = some s.id)

instance (db : DBState) : Decidable (InvariantIffBound db) := by
  unfold InvariantIffBound
  infer_instance

instance (db : DBState) : Decidable (AtMostOneBinding db) := by
  unfold AtMostOneBinding
  infer_instance

instance (db : DBState) : Decidable (SeatIdsNodup db) := by
  unfold SeatIdsNodup
  infer_instance

instance (db : DBState) : Decidable (PnrsNodup db) := by
  unfold PnrsNodup
  infer_instance

/-! ## Frame lemmas for the store operations -/

theorem updateSeatIfAvailable_ok {db : DBState} {sid : Nat} {db1 : DBState}
    (h : updateSeatIfAvailable db sid = .ok db1) :
    db1.seats = flipSeatUnavailable db.seats sid ∧ db1.bookings = db.bookings ∧
      db1.flights = db.flights ∧
      ∃ s, findSeat db sid = some s ∧ s.isAvailable = true := by
  unfold updateSeatIfAvailable at h
  cases hf : findSeat db sid with
  | none => rw [hf] at h; exact absurd h (by simp)
  | some s =>
    rw [hf] at h
    by_cases ha : s.isAvailable
    · simp only [ha, if_true] at h
      cases h
      exact ⟨rfl, rfl, rfl, s, rfl, ha⟩
    · simp [ha] at h

theorem updateSeatUnavailable_ok {db : DBState} {sid : Nat} {db1 : DBState}
    (h : updateSeatUnavailable db sid = .ok db1) :
    db1.seats = flipSeatUnavailable db.seats sid ∧ db1.bookings = db.bookings ∧
      db1.flights = db.flights := by
  unfold updateSeatUnavailable at h
  cases hf : findSeat db sid with
  | none => rw [hf] at h; exact absurd h (by simp)
  | some s =>
    rw [hf] at h
    cases h
    exact ⟨rfl, rfl, rfl⟩

/-- The booking-row update applied by a successful binding write. -/
def bindUpd (pnr : String) (sid : Nat) (b : Booking) : Booking :=
  if b.pnr == pnr then { b with seatId := some sid, checkedIn := true } else b

theorem updateBookingSeat_ok {db : DBState} {pnr : String} {sid : Nat} {db2 : DBState}
    (h : updateBookingSeat db pnr sid = .ok db2) :
    db2.bookings = db.bookings.map (bindUpd pnr sid) ∧ db2.seats = db.seats ∧
      db2.flights = db.flights ∧ (∃ b, findBooking db pnr = some b) ∧
      ∀ b ∈ db.bookings, b.pnr ≠ pnr → b.seatId ≠ some sid := by
  unfold updateBookingSeat at h
  cases hf : findBooking db pnr with
  | none => rw [hf] at h; exact absurd h (by simp)
  | some b0 =>
    rw [hf] at h
    by_cases hc : db.bookings.any (fun b => b.pnr != pnr && b.seatId == some sid)
    · simp only [hc, if_true] at h
      simp at h
    · simp only [hc, if_false] at h
      cases h
      refine ⟨rfl, rfl, rfl, ⟨b0, rfl⟩, ?_⟩
      intro b hb hne heq
      apply hc
      simp only [List.any_eq_true]
      exact ⟨b, hb, by simp [hne, heq]⟩

theorem updateBookingSeat_err_of_clash {db : DBState} {pnr : String} {sid : Nat}
    (b : Booking) (hb : b ∈ db.bookings) (hne : b.pnr ≠ pnr) (hs : b.seatId = some sid) :
    updateBookingSeat db pnr sid =
      if (findBooking db pnr).isSome then
        .error ⟨.constraintViolation, "Unique constraint failed on the fields: seatId"⟩
      else .error ⟨.notFound, "Record to update not found."⟩ := by
  unfold updateBookingSeat
  cases hf : findBooking db pnr with
  | none => simp
  | some b0 =>
    have hc : db.bookings.any (fun b => b.pnr != pnr && b.seatId == some sid) = true := by
      simp only [List.any_eq_true]
      exact ⟨b, hb, by simp [hne, hs]⟩
    simp [hc]

theorem bindUpd_pnr (pnr : String) (sid : Nat) (b : Booking) :
    (bindUpd pnr sid b).pnr = b.pnr := by
  unfold bindUpd
  by_cases h : b.pnr == pnr <;> simp [h]

theorem bindUpd_flightId (pnr : String) (sid : Nat) (b : Booking) :
    (bindUpd pnr sid b).flightId = b.flightId := by
  unfold bindUpd
  by_cases h : b.pnr == pnr <;> simp [h]

/-- A binding write rewrites the ledger pointwise, so a later lookup sees the
rewritten row. -/
theorem findBooking_of_bindUpd {db1 db2 : DBState} {pnr : String} {sid : Nat}
    (h : db2.bookings = db1.bookings.map (bindUpd pnr sid)) (pnr' : String) :
    findBooking db2 pnr' = (findBooking db1 pnr').map (bindUpd pnr sid) := by
  unfold findBooking
  rw [h, List.find?_map]
  have hfun : ((fun b : Booking => b.pnr == pnr') ∘ bindUpd pnr sid) =
      (fun b : Booking => b.pnr == pnr') := by
    funext b
    simp [Function.comp, bindUpd_pnr]
  rw [hfun]

/-- Membership facts for the unsafe policy's candidate query. -/
theorem mem_availableSeatsQuery {db : DBState} {fid k : Nat} {s : Seat}
    (h : s ∈ availableSeatsQuery db fid k) :
    s ∈ db.seats ∧ s.flightId = fid ∧ s.isAvailable = true := by
  unfold availableSeatsQuery at h
  have h2 := List.mem_of_mem_take h
  rw [List.mem_insertionSort] at h2
  unfold seatsPool at h2
  rw [List.mem_filter] at h2
  refine ⟨h2.1, ?_, ?_⟩
  · have := h2.2
    simp only [Bool.and_eq_true, beq_iff_eq] at this
    exact this.1
  · have := h2.2
    simp only [Bool.and_eq_true, beq_iff_eq] at this
    exact this.2

/-- Membership facts for the safe policy's skip-locked selection. -/
theorem selectSkipLocked_mem {db : DBState} {fid : Nat} {locked : List Nat} {s : Seat}
    (h : selectSkipLocked db fid locked = some s) :
    s ∈ db.seats ∧ s.flightId = fid ∧ s.isAvailable = true ∧ locked.contains s.id = false := by
  unfold selectSkipLocked at h
  rw [List.head?_eq_some_iff] at h
  obtain ⟨ys, hy⟩ := h
  have hmem : s ∈ List.insertionSort seatLe (db.seats.filter
      (fun t => t.flightId == fid && t.isAvailable && !(locked.contains t.id))) := by
    rw [hy]; exact List.mem_cons_self s ys
  rw [List.mem_insertionSort, List.mem_filter] at hmem
  have hp := hmem.2
  simp only [Bool.and_eq_true, beq_iff_eq, Bool.not_eq_true'] at hp
  exact ⟨hmem.1, hp.1.1, hp.1.2, hp.2⟩

/-- The error arm of the per-candidate loop: when the loop runs out of
candidates the surfaced error is the contention error, and its binding
ledger is whatever the last committed statement left — with no binding
write for this requester having succeeded. -/
theorem unsafeLoop_error {pnr : String} :
    ∀ (l : List Seat) (db : DBState) (i : Nat) (db' : DBState) (e : Err),
      unsafeLoop db pnr i l = (db', .error e) →
      e = ⟨.exhaustedCandidates,
        "Unable to assign any seat - all attempts failed due to concurrent access"⟩ ∧
      db'.bookings = db.bookings := by
  intro l
  induction l with
  | nil =>
    intro db i db' e h
    unfold unsafeLoop at h
    cases h
    exact ⟨rfl, rfl⟩
  | cons seat rest ih =>
    intro db i db' e h
    unfold unsafeLoop at h
    cases hf : findSeat db seat.id with
    | none => rw [hf] at h; exact ih db (i + 1) db' e h
    | some sc =>
      rw [hf] at h
      by_cases ha : sc.isAvailable
      · simp only [ha, if_true] at h
        cases hu : updateSeatIfAvailable db seat.id with
        | error e1 => rw [hu] at h; exact ih db (i + 1) db' e h
        | ok db1 =>
          rw [hu] at h
          dsimp only at h
          cases hb : updateBookingSeat db1 pnr seat.id with
          | error e2 =>
            rw [hb] at h
            have hres := ih db1 (i + 1) db' e h
            exact ⟨hres.1, hres.2.trans (updateSeatIfAvailable_ok hu).2.1⟩
          | ok db2 => rw [hb] at h; cases h
      · simp only [ha, if_false] at h
        exact ih db (i + 1) db' e h

/-- The success arm of the per-candidate loop: a success is one of the
candidates, with a binding write for that candidate having succeeded against
a ledger the loop had not touched. -/
theorem unsafeLoop_ok {pnr : String} :
    ∀ (l : List Seat) (db : DBState) (i : Nat) (db' : DBState) (r : AssignResult),
      unsafeLoop db pnr i l = (db', .ok r) →
      ∃ seat ∈ l, ∃ j dbk,
        r = ⟨true, seat.seatNumber, seat.id, "unsafe", some j⟩ ∧
        dbk.bookings = db.bookings ∧ updateBookingSeat dbk pnr seat.id = .ok db' := by
  intro l
  induction l with
  | nil =>
    intro db i db' r h
    unfold unsafeLoop at h
    cases h
  | cons seat rest ih =>
    intro db i db' r h
    unfold unsafeLoop at h
    cases hf : findSeat db seat.id with
    | none =>
      rw [hf] at h
      obtain ⟨s, hs, rest⟩ := ih db (i + 1) db' r h
      exact ⟨s, List.mem_cons_of_mem _ hs, rest⟩
    | some sc =>
      rw [hf] at h
      by_cases ha : sc.isAvailable
      · simp only [ha, if_true] at h
        cases hu : updateSeatIfAvailable db seat.id with
        | error e1 =>
          rw [hu] at h
          obtain ⟨s, hs, rest⟩ := ih db (i + 1) db' r h
          exact ⟨s, List.mem_cons_of_mem _ hs, rest⟩
        | ok db1 =>
          rw [hu] at h
          dsimp only at h
          cases hb : updateBookingSeat db1 pnr seat.id with
          | error e2 =>
            rw [hb] at h
            obtain ⟨s, hs, j, dbk, hr, hdbk, hupd⟩ := ih db1 (i + 1) db' r h
            exact ⟨s, List.mem_cons_of_mem _ hs, j, dbk,
              hr, hdbk.trans (updateSeatIfAvailable_ok hu).2.1, hupd⟩
          | ok db2 =>
            rw [hb] at h
            cases h
            exact ⟨seat, List.mem_cons_self seat rest, i + 1, db1,
              rfl, (updateSeatIfAvailable_ok hu).2.1, hb⟩
      · simp only [ha, if_false] at h
        obtain ⟨s, hs, rest⟩ := ih db (i + 1) db' r h
        exact ⟨s, List.mem_cons_of_mem _ hs, rest⟩

/-- A successful safe call decomposes into its transaction's three effects. -/
theorem safe_ok_spec {db db' : DBState} {pnr : String} {fid : Option Nat} {r : AssignResult}
    (h : selectNextAvailableSeatSafe db pnr fid = (db', .ok r)) :
    ∃ b seat, findBooking db pnr = some b ∧
      selectSkipLocked db (resolveTargetFlight fid b) [] = some seat ∧
      r = ⟨true, seat.seatNumber, seat.id, "safe", none⟩ ∧
      ∃ db1, updateSeatUnavailable db seat.id = .ok db1 ∧
        updateBookingSeat db1 pnr seat.id = .ok db' := by
  unfold selectNextAvailableSeatSafe safeTxBody at h
  cases hb : findBooking db pnr with
  | none => rw [hb] at h; cases h
  | some b =>
    rw [hb] at h
    cases hs : selectSkipLocked db (resolveTargetFlight fid b) [] with
    | none => simp only [hs] at h; cases h
    | some seat =>
      simp only [hs] at h
      cases hu : updateSeatUnavailable db seat.id with
      | error e1 => rw [hu] at h; cases h
      | ok db1 =>
        rw [hu] at h
        dsimp only at h
        cases hw : updateBookingSeat db1 pnr seat.id with
        | error e2 => rw [hw] at h; cases h
        | ok db2 =>
          rw [hw] at h
          cases h
          exact ⟨b, seat, rfl, hs, rfl, db1, hu, hw⟩

theorem bindUpd_eq_of_pnr {pnr : String} {sid : Nat} {b : Booking}
    (h : (b.pnr == pnr) = true) :
    bindUpd pnr sid b = { b with seatId := some sid, checkedIn := true } := by
  unfold bindUpd
  rw [h]
  simp

/-- After a successful binding write against a ledger equal to `db`'s, the
requester's row carries the new seat, the checked-in flag, and its other
fields — in particular `flightId` — unchanged. -/
theorem bound_after_write {db dbk db' : DBState} {pnr : String} {sid : Nat} {b : Booking}
    (hdbk : dbk.bookings = db.bookings) (hw : updateBookingSeat dbk pnr sid = .ok db')
    (hb : findBooking db pnr = some b) :
    findBooking db' pnr = some { b with seatId := some sid, checkedIn := true } := by
  have hmap : db'.bookings = db.bookings.map (bindUpd pnr sid) := by
    rw [(updateBookingSeat_ok hw).1, hdbk]
  have := findBooking_of_bindUpd hmap pnr
  rw [hb] at this
  rw [this, Option.map_some']
  have hb2 : db.bookings.find? (fun x => x.pnr == pnr) = some b := hb
  have hpnr := List.find?_some hb2
  rw [bindUpd_eq_of_pnr hpnr]

theorem resolveTargetFlight_pos {n : Nat} (hn : n ≠ 0) (b : Booking) :
    resolveTargetFlight (some n) b = n := by
  unfold resolveTargetFlight
  simp [hn]

/-! ## Claim C10: the pool selector is not validated -/

/-- C10: for both policies, the optional `flightId` pool selector is not
validated against the requester's own booking: a truthy selector makes the
call bind a seat of the selected flight to the requester even when that
flight differs from the booking's, with the booking's `flightId` field left
unchanged; and the falsy selector 0 is treated exactly as an absent one. -/
theorem flight_selector_not_validated (db db' : DBState) (pnr : String) (n : Nat)
    (r : AssignResult) (hn : n ≠ 0) :
    (selectNextAvailableSeatSafe db pnr (some 0) = selectNextAvailableSeatSafe db pnr none ∧
     selectNextAvailableSeatUnsafe db pnr (some 0) =
       selectNextAvailableSeatUnsafe db pnr none) ∧
    (selectNextAvailableSeatSafe db pnr (some n) = (db', .ok r) →
      (∃ s ∈ db.seats, s.id = r.seatId ∧ s.flightId = n) ∧
      ∃ b, findBooking db pnr = some b ∧
        findBooking db' pnr = some { b with seatId := some r.seatId, checkedIn := true }) ∧
    (selectNextAvailableSeatUnsafe db pnr (some n) = (db', .ok r) →
      (∃ s ∈ db.seats, s.id = r.seatId ∧ s.flightId = n) ∧
      ∃ b, findBooking db pnr = some b ∧
        findBooking db' pnr = some { b with seatId := some r.seatId, checkedIn := true }) := by
  refine ⟨⟨rfl, rfl⟩, ?_, ?_⟩
  · intro h
    obtain ⟨b, seat, hb, hs, hr, db1, hu, hw⟩ := safe_ok_spec h
    rw [resolveTargetFlight_pos hn] at hs
    have hm := selectSkipLocked_mem hs
    have hsid : r.seatId = seat.id := by rw [hr]
    refine ⟨⟨seat, hm.1, hsid.symm, hm.2.1⟩, b, hb, ?_⟩
    rw [hsid]
    exact bound_after_write (updateSeatUnavailable_ok hu).2.1 hw hb
  · intro h
    unfold selectNextAvailableSeatUnsafe at h
    cases hbk : findBooking db pnr with
    | none => rw [hbk] at h; simp at h
    | some booking =>
      rw [hbk] at h
      dsimp only at h
      rw [resolveTargetFlight_pos hn] at h
      by_cases he : (availableSeatsQuery db n 5).isEmpty
      · rw [if_pos he] at h
        simp at h
      · rw [if_neg he] at h
        obtain ⟨seat, hmem, j, dbk, hr, hdbk, hupd⟩ := unsafeLoop_ok _ db 0 db' r h
        have hm := mem_availableSeatsQuery hmem
        have hsid : r.seatId = seat.id := by rw [hr]
        refine ⟨⟨seat, hm.1, hsid.symm, hm.2.1⟩, booking, rfl, ?_⟩
        rw [hsid]
        exact bound_after_write hdbk hupd hbk

/-- C10 witness: requester `A` is booked on flight 1, but a call with
selector 2 binds it the flight-2 seat and leaves its booking's flight 1. -/
theorem flight_selector_not_validated_witness :
    (selectNextAvailableSeatSafe
        ⟨[], [⟨7, 2, "1A", "ECONOMY", true, 100⟩],
          [⟨1, "A", 1, 1, none, false, "CONFIRMED"⟩]⟩ "A" (some 2)).2 =
      .ok ⟨true, "1A", 7, "safe", none⟩ ∧
    (∃ s ∈ (⟨[], [⟨7, 2, "1A", "ECONOMY", true, 100⟩],
          [⟨1, "A", 1, 1, none, false, "CONFIRMED"⟩]⟩ : DBState).seats,
        s.id = 7 ∧ s.flightId = 2) := by
  have h := flight_selector_not_validated
    ⟨[], [⟨7, 2, "1A", "ECONOMY", true, 100⟩], [⟨1, "A", 1, 1, none, false, "CONFIRMED"⟩]⟩
    ((selectNextAvailableSeatSafe
        ⟨[], [⟨7, 2, "1A", "ECONOMY", true, 100⟩],
          [⟨1, "A", 1, 1, none, false, "CONFIRMED"⟩]⟩ "A" (some 2)).1)
    "A" 2 ⟨true, "1A", 7, "safe", none⟩ (by decide)
  refine ⟨rfl, (h.2.1 ?_).1⟩
  rfl

/-- A failed safe call leaves the store untouched (the `$transaction`
rollback); shared helper behind several claims. -/
theorem safe_error_state (db : DBState) (pnr : String) (fid : Option Nat) (e : Err)
    (h : (selectNextAvailableSeatSafe db pnr fid).2 = .error e) :
    (selectNextAvailableSeatSafe db pnr fid).1 = db := by
  unfold selectNextAvailableSeatSafe at h ⊢
  cases hb : safeTxBody db pnr fid [] with
  | error e2 => rfl
  | ok p =>
    rw [hb] at h
    cases p
    simp at h

/-- A seat among the images of the one-seat flip that carries the flipped id
is unavailable. -/
theorem flipSeat_unavailable_of_id {l : List Seat} {sid : Nat} {s : Seat}
    (hs : s ∈ flipSeatUnavailable l sid) (hid : s.id = sid) : s.isAvailable = false := by
  unfold flipSeatUnavailable at hs
  obtain ⟨t, ht, heq⟩ := List.mem_map.mp hs
  by_cases h : (t.id == sid) = true
  · rw [if_pos h] at heq
    rw [← heq]
  · rw [if_neg h] at heq
    subst heq
    exact absurd (by simp [hid]) h

/-- The race footprint: seat 1 is still flagged available although requester
`B`'s binding already references it — the state two interleaved unsafe calls
produce between the conditional update and the binding write. -/
def dbRace : DBState :=
  ⟨[], [⟨1, 1, "10A", "ECONOMY", true, 100⟩],
    [⟨1, "A", 1, 1, none, false, "CONFIRMED"⟩,
     ⟨2, "B", 1, 2, some 1, true, "CONFIRMED"⟩]⟩

/-- `dbRace` after the conditional update flipped seat 1. -/
def dbRaceAfter : DBState :=
  ⟨[], [⟨1, 1, "10A", "ECONOMY", false, 100⟩],
    [⟨1, "A", 1, 1, none, false, "CONFIRMED"⟩,
     ⟨2, "B", 1, 2, some 1, true, "CONFIRMED"⟩]⟩

/-! ## Claim C5: the unsafe policy's candidate window and failure taxonomy -/

/-- C5: `selectNextAvailableSeatUnsafe` queries at most five available seats
in ascending ordering-key order; an empty window fails with the
pool-exhausted error ("No seats available on this flight"); an error out of
a nonempty window is the distinct contention error (`ExhaustedCandidates`);
and a candidate whose re-check finds it unavailable is recovered locally by
advancing to the next candidate. -/
theorem unsafe_window_and_failure_taxonomy (db : DBState) (pnr : String) (fid : Option Nat)
    (b : Booking) (hb : findBooking db pnr = some b) :
    (availableSeatsQuery db (resolveTargetFlight fid b) 5).length ≤ 5 ∧
    List.Pairwise seatLe (availableSeatsQuery db (resolveTargetFlight fid b) 5) ∧
    (availableSeatsQuery db (resolveTargetFlight fid b) 5 = [] →
      selectNextAvailableSeatUnsafe db pnr fid =
        (db, .error ⟨.poolExhausted, "No seats available on this flight"⟩)) ∧
    (∀ db' e, selectNextAvailableSeatUnsafe db pnr fid = (db', .error e) →
      availableSeatsQuery db (resolveTargetFlight fid b) 5 ≠ [] →
      e = ⟨.exhaustedCandidates,
        "Unable to assign any seat - all attempts failed due to concurrent access"⟩) ∧
    (∀ (db0 : DBState) (seat sc : Seat) (rest : List Seat) (i : Nat),
      findSeat db0 seat.id = some sc → sc.isAvailable = false →
      unsafeLoop db0 pnr i (seat :: rest) = unsafeLoop db0 pnr (i + 1) rest) := by
  refine ⟨List.length_take_le 5 _, ?_, ?_, ?_, ?_⟩
  · exact List.Pairwise.sublist (List.take_sublist 5 _)
      (List.sorted_insertionSort seatLe (seatsPool db (resolveTargetFlight fid b)))
  · intro hempty
    unfold selectNextAvailableSeatUnsafe
    rw [hb]
    dsimp only
    rw [if_pos (by rw [hempty]; rfl)]
  · intro db' e h hne
    unfold selectNextAvailableSeatUnsafe at h
    rw [hb] at h
    dsimp only at h
    rw [if_neg (by simpa [List.isEmpty_iff] using hne)] at h
    exact (unsafeLoop_error _ db 0 db' e h).1
  · intro db0 seat sc rest i hsc hun
    conv_lhs => rw [unsafeLoop]
    rw [hsc]
    simp only [hun, Bool.false_eq_true, if_false]

/-- C5 witness: a store with one booked requester and no seats — the window
is within bounds and the call fails with the pool-exhausted error. -/
theorem unsafe_window_and_failure_taxonomy_witness :
    (availableSeatsQuery ⟨[], [], [⟨1, "A", 1, 1, none, false, "CONFIRMED"⟩]⟩ 1 5).length ≤ 5 ∧
    selectNextAvailableSeatUnsafe ⟨[], [], [⟨1, "A", 1, 1, none, false, "CONFIRMED"⟩]⟩ "A" none =
      (⟨[], [], [⟨1, "A", 1, 1, none, false, "CONFIRMED"⟩]⟩,
        .error ⟨.poolExhausted, "No seats available on this flight"⟩) := by
  have h := unsafe_window_and_failure_taxonomy
    ⟨[], [], [⟨1, "A", 1, 1, none, false, "CONFIRMED"⟩]⟩ "A" none
    ⟨1, "A", 1, 1, none, false, "CONFIRMED"⟩ rfl
  exact ⟨h.1, h.2.2.1 rfl⟩

/-! ## Claim C4: a constraint rejection is recovered, not surfaced -/

/-- C4 counterexample: in the race footprint `dbRace`, the conditional update
succeeds, the ledger's uniqueness constraint then rejects the binding write
with the storage error — yet the unsafe call surfaces the contention error
(`ExhaustedCandidates`), a different kind, to the caller. -/
theorem constraint_rejection_not_surfaced_counterexample :
    updateSeatIfAvailable dbRace 1 = .ok dbRaceAfter ∧
    updateBookingSeat dbRaceAfter "A" 1 =
      .error ⟨.constraintViolation, "Unique constraint failed on the fields: seatId"⟩ ∧
    selectNextAvailableSeatUnsafe dbRace "A" none =
      (dbRaceAfter, .error ⟨.exhaustedCandidates,
        "Unable to assign any seat - all attempts failed due to concurrent access"⟩) ∧
    ErrKind.exhaustedCandidates ≠ ErrKind.constraintViolation :=
  ⟨rfl, rfl, rfl, by decide⟩

/-- C4 (amended): when the ledger's uniqueness constraint rejects a binding
write inside `selectNextAvailableSeatUnsafe`, the per-candidate handler
catches it and advances to the next candidate; an error surfaced after that
recovery has kind `ExhaustedCandidates`, so the storage error's kind is not
preserved to the caller — but the engine never masks the rejection as
success: a successful return requires a successful binding write. -/
theorem constraint_rejection_recovered_not_surfaced (db db1 : DBState) (pnr : String)
    (seat sc : Seat) (rest : List Seat) (i : Nat)
    (hsc : findSeat db seat.id = some sc) (hav : sc.isAvailable = true)
    (hup : updateSeatIfAvailable db seat.id = .ok db1)
    (hw : updateBookingSeat db1 pnr seat.id =
      .error ⟨.constraintViolation, "Unique constraint failed on the fields: seatId"⟩) :
    unsafeLoop db pnr i (seat :: rest) = unsafeLoop db1 pnr (i + 1) rest ∧
    (∀ db' e, unsafeLoop db1 pnr (i + 1) rest = (db', .error e) →
      e.kind = .exhaustedCandidates) ∧
    (∀ db' r, unsafeLoop db pnr i (seat :: rest) = (db', .ok r) →
      ∃ dbk, updateBookingSeat dbk pnr r.seatId = .ok db') := by
  refine ⟨?_, ?_, ?_⟩
  · conv_lhs => rw [unsafeLoop]
    rw [hsc]
    simp only [hav, if_true]
    rw [hup]
    dsimp only
    rw [hw]
  · intro db' e h
    rw [(unsafeLoop_error _ db1 (i + 1) db' e h).1]
  · intro db' r h
    obtain ⟨s, _, j, dbk, hr, _, hupd⟩ := unsafeLoop_ok _ db i db' r h
    subst hr
    exact ⟨dbk, hupd⟩

/-- C4 witness: the amended behavior at the concrete race footprint — the
loop advances past the rejected candidate and ends in the contention
error. -/
theorem constraint_rejection_recovered_not_surfaced_witness :
    unsafeLoop dbRace "A" 0 [⟨1, 1, "10A", "ECONOMY", true, 100⟩] =
      unsafeLoop dbRaceAfter "A" 1 [] ∧
    (∀ db' e, unsafeLoop dbRaceAfter "A" 1 [] = (db', .error e) →
      e.kind = .exhaustedCandidates) := by
  have h := constraint_rejection_recovered_not_surfaced dbRace dbRaceAfter "A"
    ⟨1, 1, "10A", "ECONOMY", true, 100⟩ ⟨1, 1, "10A", "ECONOMY", true, 100⟩ [] 0
    rfl rfl rfl rfl
  exact ⟨h.1, h.2.1⟩

/-! ## Claim C9: the unsafe policy is not atomic per candidate -/

/-- C9 counterexample: the unsafe call on `dbRace` fails, yet its conditional
update has flipped seat 1 to unavailable — and, the binding write having
been rejected by the uniqueness constraint, a live binding (requester `B`'s)
does reference the seat, contradicting the claim's "no binding references
it". -/
theorem unsafe_loop_flip_persists_counterexample :
    (selectNextAvailableSeatUnsafe dbRace "A" none).2 = .error ⟨.exhaustedCandidates,
      "Unable to assign any seat - all attempts failed due to concurrent access"⟩ ∧
    (∀ s ∈ (selectNextAvailableSeatUnsafe dbRace "A" none).1.seats, s.isAvailable = false) ∧
    ¬ (∀ b ∈ (selectNextAvailableSeatUnsafe dbRace "A" none).1.bookings,
        b.seatId ≠ some 1) :=
  ⟨rfl, by decide, by decide⟩

/-- C9 (amended): if the binding write fails after the conditional seat
update succeeded, the seat stays flipped to unavailable (the update is not
rolled back) and the requester's ledger entry is untouched while the loop
advances to the next candidate — the unsafe policy is not atomic per
candidate.  (The seat is without the requester's binding; a binding of a
conflicting requester may reference it, as in the constraint-violation
case.) -/
theorem unsafe_loop_not_atomic_per_candidate (db db1 : DBState) (pnr : String)
    (seat sc : Seat) (rest : List Seat) (i : Nat) (e : Err)
    (hsc : findSeat db seat.id = some sc) (hav : sc.isAvailable = true)
    (hup : updateSeatIfAvailable db seat.id = .ok db1)
    (hw : updateBookingSeat db1 pnr seat.id = .error e) :
    unsafeLoop db pnr i (seat :: rest) = unsafeLoop db1 pnr (i + 1) rest ∧
    (∀ s ∈ db1.seats, s.id = seat.id → s.isAvailable = false) ∧
    db1.bookings = db.bookings := by
  refine ⟨?_, ?_, (updateSeatIfAvailable_ok hup).2.1⟩
  · conv_lhs => rw [unsafeLoop]
    rw [hsc]
    simp only [hav, if_true]
    rw [hup]
    dsimp only
    rw [hw]
  · intro s hs hid
    rw [(updateSeatIfAvailable_ok hup).1] at hs
    exact flipSeat_unavailable_of_id hs hid

/-- C9 witness: the amended per-candidate behavior at the race footprint. -/
theorem unsafe_loop_not_atomic_per_candidate_witness :
    unsafeLoop dbRace "A" 0 [⟨1, 1, "10A", "ECONOMY", true, 100⟩] =
      unsafeLoop dbRaceAfter "A" 1 [] ∧
    (∀ s ∈ dbRaceAfter.seats, s.id = 1 → s.isAvailable = false) ∧
    dbRaceAfter.bookings = dbRace.bookings := by
  have h := unsafe_loop_not_atomic_per_candidate dbRace dbRaceAfter "A"
    ⟨1, 1, "10A", "ECONOMY", true, 100⟩ ⟨1, 1, "10A", "ECONOMY", true, 100⟩ [] 0
    ⟨.constraintViolation, "Unique constraint failed on the fields: seatId"⟩
    rfl rfl rfl rfl
  exact h

/-! ## Support for the data-model invariant claims -/

theorem bindUpd_of_ne {pnr : String} {sid : Nat} {x : Booking}
    (h : (x.pnr == pnr) = false) : bindUpd pnr sid x = x := by
  unfold bindUpd
  rw [h]
  rfl

theorem find?_id_self {c : Seat} :
    ∀ {l : List Seat}, (l.map Seat.id).Nodup → c ∈ l →
      l.find? (fun s => s.id == c.id) = some c
  | [], _, hc => absurd hc (List.not_mem_nil c)
  | h :: t, hids, hc => by
    rw [List.map_cons, List.nodup_cons] at hids
    rcases List.mem_cons.mp hc with hch | hct
    · subst hch
      rw [List.find?_cons_of_pos _ (by simp)]
    · have hne : (h.id == c.id) = false := by
        rw [beq_eq_false_iff_ne]
        intro heq
        exact hids.1 (heq ▸ List.mem_map_of_mem Seat.id hct)
      rw [List.find?_cons_of_neg _ (by simp [hne]), find?_id_self hids.2 hct]

/-- With unique seat ids, the re-read by id returns the seat itself. -/
theorem findSeat_self {db : DBState} {c : Seat} (hids : SeatIdsNodup db)
    (hc : c ∈ db.seats) : findSeat db c.id = some c :=
  find?_id_self hids hc

theorem mem_filterMap_map_bindUpd {pnr : String} {sid : Nat} {l : List Booking} {y : Nat}
    (h : y ∈ (l.map (bindUpd pnr sid)).filterMap Booking.seatId) :
    y = sid ∨ y ∈ l.filterMap Booking.seatId := by
  rw [List.mem_filterMap] at h
  obtain ⟨b', hb', hy⟩ := h
  rw [List.mem_map] at hb'
  obtain ⟨x, hx, hbx⟩ := hb'
  by_cases hp : (x.pnr == pnr) = true
  · left
    rw [← hbx, bindUpd_eq_of_pnr hp] at hy
    simpa using hy.symm
  · right
    rw [← hbx, bindUpd_of_ne (by simpa using hp)] at hy
    exact List.mem_filterMap.mpr ⟨x, hx, hy⟩

theorem map_bindUpd_eq_self {pnr : String} {sid : Nat} :
    ∀ {l : List Booking}, (∀ x ∈ l, x.pnr ≠ pnr) → l.map (bindUpd pnr sid) = l
  | [], _ => rfl
  | b :: l, h => by
    rw [List.map_cons, bindUpd_of_ne (by simpa using h b (List.mem_cons_self b l)),
      map_bindUpd_eq_self (fun x hx => h x (List.mem_cons_of_mem b hx))]

/-- The binding write keeps the ledger's bound seats duplicate-free, given
unique requester references and a seat not bound elsewhere. -/
theorem nodupBind_map_bindUpd (pnr : String) (sid : Nat) :
    ∀ l : List Booking, (l.map Booking.pnr).Nodup →
      (l.filterMap Booking.seatId).Nodup →
      (∀ x ∈ l, x.pnr ≠ pnr → x.seatId ≠ some sid) →
      ((l.map (bindUpd pnr sid)).filterMap Booking.seatId).Nodup
  | [] => by intro _ _ _; simp
  | b :: l => by
    intro hp hf hs
    rw [List.map_cons, List.nodup_cons] at hp
    have htailsub : List.Sublist (l.filterMap Booking.seatId)
        ((b :: l).filterMap Booking.seatId) :=
      List.Sublist.filterMap Booking.seatId (List.sublist_cons_self b l)
    by_cases hbp : (b.pnr == pnr) = true
    · have htail : ∀ x ∈ l, x.pnr ≠ pnr := by
        intro x hx hxp
        apply hp.1
        rw [List.mem_map]
        exact ⟨x, hx, by rw [hxp]; exact (beq_iff_eq.mp hbp).symm⟩
      rw [List.map_cons, bindUpd_eq_of_pnr hbp, map_bindUpd_eq_self htail,
        List.filterMap_cons]
      simp only
      rw [List.nodup_cons]
      refine ⟨?_, List.Nodup.sublist htailsub hf⟩
      intro hmem
      obtain ⟨x, hx, hxy⟩ := List.mem_filterMap.mp hmem
      exact hs x (List.mem_cons_of_mem b hx) (htail x hx) hxy
    · rw [List.map_cons, bindUpd_of_ne (by simpa using hbp), List.filterMap_cons]
      have hbne : b.pnr ≠ pnr := by simpa using hbp
      have hrec := nodupBind_map_bindUpd pnr sid l hp.2
        (List.Nodup.sublist htailsub hf)
        (fun x hx hxp => hs x (List.mem_cons_of_mem b hx) hxp)
      cases hbs : b.seatId with
      | none => exact hrec
      | some y =>
        simp only
        rw [List.nodup_cons]
        refine ⟨?_, hrec⟩
        intro hmem
        rcases mem_filterMap_map_bindUpd hmem with hy | hy
        · exact hs b (List.mem_cons_self b l) hbne (by rw [hbs, hy])
        · rw [List.filterMap_cons, hbs] at hf
          simp only at hf
          exact (List.nodup_cons.mp hf).1 hy

/-- The binding write preserves `AtMostOneBinding`. -/
theorem atMostOne_after_bind {db db' : DBState} {pnr : String} {sid : Nat}
    (hp : PnrsNodup db) (ha : AtMostOneBinding db)
    (hw : updateBookingSeat db pnr sid = .ok db') : AtMostOneBinding db' := by
  obtain ⟨hmap, _, _, _, hs⟩ := updateBookingSeat_ok hw
  unfold AtMostOneBinding
  rw [hmap]
  exact nodupBind_map_bindUpd pnr sid db.bookings hp ha hs

/-- Case analysis of a whole unsafe call: an error keeps the ledger, a
success is one successful binding write against the untouched ledger. -/
theorem unsafe_call_cases {db db' : DBState} {pnr : String} {fid : Option Nat}
    {res : Except Err AssignResult}
    (h : selectNextAvailableSeatUnsafe db pnr fid = (db', res)) :
    (∃ e, res = .error e ∧ db'.bookings = db.bookings) ∨
    (∃ r dbk, res = .ok r ∧ dbk.bookings = db.bookings ∧
      updateBookingSeat dbk pnr r.seatId = .ok db') := by
  unfold selectNextAvailableSeatUnsafe at h
  cases hb : findBooking db pnr with
  | none =>
    rw [hb] at h
    rw [Prod.mk.injEq] at h
    exact Or.inl ⟨_, h.2.symm, by rw [← h.1]⟩
  | some booking =>
    rw [hb] at h
    dsimp only at h
    by_cases he : (availableSeatsQuery db (resolveTargetFlight fid booking) 5).isEmpty
    · rw [if_pos he, Prod.mk.injEq] at h
      exact Or.inl ⟨_, h.2.symm, by rw [← h.1]⟩
    · rw [if_neg he] at h
      cases res with
      | error e =>
        exact Or.inl ⟨e, rfl, (unsafeLoop_error _ db 0 db' e h).2⟩
      | ok r =>
        obtain ⟨seat, _, j, dbk, hr, hdbk, hupd⟩ := unsafeLoop_ok _ db 0 db' r h
        subst hr
        exact Or.inr ⟨_, dbk, rfl, hdbk, hupd⟩

/-- Case analysis of a whole safe call, mirroring `unsafe_call_cases`. -/
theorem safe_call_cases {db db' : DBState} {pnr : String} {fid : Option Nat}
    {res : Except Err AssignResult}
    (h : selectNextAvailableSeatSafe db pnr fid = (db', res)) :
    (∃ e, res = .error e ∧ db' = db) ∨
    (∃ r dbk, res = .ok r ∧ dbk.bookings = db.bookings ∧
      updateBookingSeat dbk pnr r.seatId = .ok db') := by
  cases res with
  | error e =>
    refine Or.inl ⟨e, rfl, ?_⟩
    have h2 : (selectNextAvailableSeatSafe db pnr fid).2 = .error e := by rw [h]
    have h1 := safe_error_state db pnr fid e h2
    rw [h] at h1
    exact h1
  | ok r =>
    obtain ⟨b, seat, hb, hs, hr, db1, hu, hw⟩ := safe_ok_spec h
    subst hr
    exact Or.inr ⟨_, db1, rfl, (updateSeatUnavailable_ok hu).2.1, hw⟩

/-- With unique requester references, any ledger row matching the looked-up
reference is the looked-up row. -/
theorem booking_unique {db : DBState} {pnr : String} {b x : Booking}
    (hpnrs : PnrsNodup db) (hb : findBooking db pnr = some b)
    (hx : x ∈ db.bookings) (hxp : (x.pnr == pnr) = true) : x = b := by
  have hb2 : db.bookings.find? (fun y => y.pnr == pnr) = some b := hb
  have hbp := List.find?_some hb2
  have hbmem := List.mem_of_find?_eq_some hb2
  exact List.inj_on_of_nodup_map hpnrs hx hbmem
    (by rw [beq_iff_eq.mp hxp, beq_iff_eq.mp hbp])

/-- Binding a previously unbound requester to an available seat preserves the
availability-iff-bound invariant. -/
theorem iff_preserved_by_bind {db db2 : DBState} {pnr : String} {b : Booking} {c : Seat}
    (hpnrs : PnrsNodup db) (hiff : InvariantIffBound db)
    (hb : findBooking db pnr = some b) (hbnone : b.seatId = none)
    (hseats : db2.seats = flipSeatUnavailable db.seats c.id)
    (hbook : db2.bookings = db.bookings.map (bindUpd pnr c.id)) :
    InvariantIffBound db2 := by
  intro s hs
  rw [hseats] at hs
  unfold flipSeatUnavailable at hs
  obtain ⟨t, ht, heq⟩ := List.mem_map.mp hs
  have hb2 : db.bookings.find? (fun y => y.pnr == pnr) = some b := hb
  have hbmem : b ∈ db.bookings := List.mem_of_find?_eq_some hb2
  have hbpnr := List.find?_some hb2
  by_cases hid : (t.id == c.id) = true
  · rw [if_pos hid] at heq
    subst heq
    simp only
    constructor
    · intro _
      refine ⟨bindUpd pnr c.id b, ?_, ?_⟩
      · rw [hbook]
        exact List.mem_map_of_mem _ hbmem
      · rw [bindUpd_eq_of_pnr hbpnr]
        simp only
        rw [beq_iff_eq.mp hid]
    · intro _
      trivial
  · rw [if_neg hid] at heq
    subst heq
    have htid : t.id ≠ c.id := by simpa using hid
    rw [hiff t ht]
    constructor
    · rintro ⟨x, hx, hxs⟩
      refine ⟨bindUpd pnr c.id x, ?_, ?_⟩
      · rw [hbook]
        exact List.mem_map_of_mem _ hx
      · by_cases hxp : (x.pnr == pnr) = true
        · rw [booking_unique hpnrs hb hx hxp, hbnone] at hxs
          cases hxs
        · rw [bindUpd_of_ne (by simpa using hxp)]
          exact hxs
    · rintro ⟨b', hb', hbs⟩
      rw [hbook] at hb'
      obtain ⟨x, hx, hbx⟩ := List.mem_map.mp hb'
      by_cases hxp : (x.pnr == pnr) = true
      · rw [← hbx, bindUpd_eq_of_pnr hxp] at hbs
        simp only [Option.some.injEq] at hbs
        exact absurd hbs.symm htid
      · rw [← hbx, bindUpd_of_ne (by simpa using hxp)] at hbs
        exact ⟨x, hx, hbs⟩

/-- In a state satisfying the data-model invariant, an unsafe call with a
nonempty candidate window succeeds on the first candidate: the conditional
update and the binding write both go through. -/
theorem unsafe_consistent_spec {db : DBState} {pnr : String} {fid : Option Nat} {b : Booking}
    (hids : SeatIdsNodup db) (hiff : InvariantIffBound db)
    (hb : findBooking db pnr = some b) :
    ∀ c rest, availableSeatsQuery db (resolveTargetFlight fid b) 5 = c :: rest →
      ∃ db2, updateBookingSeat { db with seats := flipSeatUnavailable db.seats c.id }
          pnr c.id = .ok db2 ∧
        selectNextAvailableSeatUnsafe db pnr fid =
          (db2, .ok ⟨true, c.seatNumber, c.id, "unsafe", some 1⟩) := by
  intro c rest hq
  have hcm : c ∈ availableSeatsQuery db (resolveTargetFlight fid b) 5 := by
    rw [hq]
    exact List.mem_cons_self c rest
  have hfacts := mem_availableSeatsQuery hcm
  have hfind : findSeat db c.id = some c := findSeat_self hids hfacts.1
  have hcond : updateSeatIfAvailable db c.id =
      .ok { db with seats := flipSeatUnavailable db.seats c.id } := by
    unfold updateSeatIfAvailable
    rw [hfind]
    dsimp only
    rw [if_pos hfacts.2.2]
  have hnobind : ∀ x ∈ db.bookings, x.seatId ≠ some c.id := by
    intro x hx hxs
    have := (hiff c hfacts.1).mpr ⟨x, hx, hxs⟩
    rw [hfacts.2.2] at this
    cases this
  have hany : (db.bookings.any (fun x => x.pnr != pnr && x.seatId == some c.id)) = false := by
    rw [Bool.eq_false_iff]
    intro hcontra
    obtain ⟨x, hx, hxp⟩ := List.any_eq_true.mp hcontra
    rw [Bool.and_eq_true] at hxp
    exact hnobind x hx (by simpa using hxp.2)
  have hbupd : updateBookingSeat { db with seats := flipSeatUnavailable db.seats c.id }
      pnr c.id = .ok
        { db with
          seats := flipSeatUnavailable db.seats c.id,
          bookings := db.bookings.map
            (fun x =>
              if x.pnr == pnr then { x with seatId := some c.id, checkedIn := true }
              else x) } := by
    unfold updateBookingSeat
    have hfb : findBooking { db with seats := flipSeatUnavailable db.seats c.id } pnr =
        some b := hb
    rw [hfb]
    dsimp only
    rw [if_neg (by rw [hany]; simp)]
  refine ⟨_, hbupd, ?_⟩
  unfold selectNextAvailableSeatUnsafe
  rw [hb]
  dsimp only
  rw [if_neg (by rw [hq]; simp)]
  rw [hq]
  conv_lhs => rw [unsafeLoop]
  rw [hfind]
  simp only [hfacts.2.2, if_true]
  rw [hcond]
  dsimp only
  rw [hbupd]

theorem pnrsNodup_of_bookings_eq {db1 db2 : DBState} (h : db1.bookings = db2.bookings)
    (hp : PnrsNodup db2) : PnrsNodup db1 := by
  unfold PnrsNodup
  rw [h]
  exact hp

theorem atMostOne_of_bookings_eq {db1 db2 : DBState} (h : db1.bookings = db2.bookings)
    (ha : AtMostOneBinding db2) : AtMostOneBinding db1 := by
  unfold AtMostOneBinding
  rw [h]
  exact ha

/-- An empty candidate window makes the unsafe call fail with the
pool-exhausted error, with the store untouched. -/
theorem unsafe_empty_window {db : DBState} {pnr : String} {fid : Option Nat} {b : Booking}
    (hb : findBooking db pnr = some b)
    (hempty : availableSeatsQuery db (resolveTargetFlight fid b) 5 = []) :
    selectNextAvailableSeatUnsafe db pnr fid =
      (db, .error ⟨.poolExhausted, "No seats available on this flight"⟩) := by
  unfold selectNextAvailableSeatUnsafe
  rw [hb]
  dsimp only
  rw [if_pos (by rw [hempty]; rfl)]

/-! ## Claim C2: the data-model invariants under the engine's operations -/

/-- C2 (amended): every engine operation preserves "at most one live binding
references a given seat" (given the ledger's unique requester references);
the administrative reset establishes the availability-iff-bound invariant
outright; and both allocation policies preserve the availability-iff-bound
invariant when the allocating requester has no seat bound.  (When the
requester is already bound, the invariant can break — see the
counterexample.) -/
theorem engine_binding_invariants (db : DBState) (pnr : String) (fid : Option Nat) :
    (PnrsNodup db → AtMostOneBinding db →
      AtMostOneBinding (selectNextAvailableSeatSafe db pnr fid).1 ∧
      AtMostOneBinding (selectNextAvailableSeatUnsafe db pnr fid).1) ∧
    (AtMostOneBinding (resetAllSeats db).1 ∧ InvariantIffBound (resetAllSeats db).1) ∧
    (∀ b, SeatIdsNodup db → PnrsNodup db → InvariantIffBound db →
      findBooking db pnr = some b → b.seatId = none →
      InvariantIffBound (selectNextAvailableSeatSafe db pnr fid).1 ∧
      InvariantIffBound (selectNextAvailableSeatUnsafe db pnr fid).1) := by
  refine ⟨?_, ⟨?_, ?_⟩, ?_⟩
  · intro hp ha
    constructor
    · cases hres : selectNextAvailableSeatSafe db pnr fid with
      | mk db' res =>
        rcases safe_call_cases hres with ⟨e, _, hdb⟩ | ⟨r, dbk, _, hdbk, hupd⟩
        · rw [hdb]
          exact ha
        · exact atMostOne_after_bind (pnrsNodup_of_bookings_eq hdbk hp)
            (atMostOne_of_bookings_eq hdbk ha) hupd
    · cases hres : selectNextAvailableSeatUnsafe db pnr fid with
      | mk db' res =>
        rcases unsafe_call_cases hres with ⟨e, _, hdb⟩ | ⟨r, dbk, _, hdbk, hupd⟩
        · exact atMostOne_of_bookings_eq hdb ha
        · exact atMostOne_after_bind (pnrsNodup_of_bookings_eq hdbk hp)
            (atMostOne_of_bookings_eq hdbk ha) hupd
  · unfold AtMostOneBinding resetAllSeats
    dsimp only
    rw [List.filterMap_eq_nil_iff.mpr]
    · exact List.nodup_nil
    · intro a ha
      obtain ⟨x, _, hx⟩ := List.mem_map.mp ha
      rw [← hx]
  · intro s hs
    unfold resetAllSeats at hs
    dsimp only at hs
    obtain ⟨t, _, heq⟩ := List.mem_map.mp hs
    constructor
    · intro h
      rw [← heq] at h
      cases h
    · rintro ⟨b', hb', hbs⟩
      unfold resetAllSeats at hb'
      dsimp only at hb'
      obtain ⟨x, _, hx⟩ := List.mem_map.mp hb'
      rw [← hx] at hbs
      cases hbs
  · intro b hids hp hiff hb hbnone
    constructor
    · cases hres : selectNextAvailableSeatSafe db pnr fid with
      | mk db' res =>
        cases res with
        | error e =>
          have h2 : (selectNextAvailableSeatSafe db pnr fid).2 = .error e := by rw [hres]
          have h1 := safe_error_state db pnr fid e h2
          rw [hres] at h1
          have h3 : db' = db := h1
          rw [h3]
          exact hiff
        | ok r =>
          obtain ⟨b0, seat, hb0, hs, hr, db1, hu, hw⟩ := safe_ok_spec hres
          have hb0b : b0 = b := by
            rw [hb] at hb0
            exact ((Option.some.injEq _ _).mp hb0).symm
          obtain ⟨hw1, hw2, _, _, _⟩ := updateBookingSeat_ok hw
          obtain ⟨hu1, hu2, _⟩ := updateSeatUnavailable_ok hu
          exact iff_preserved_by_bind hp hiff hb0 (by rw [hb0b]; exact hbnone)
            (by rw [hw2, hu1]) (by rw [hw1, hu2])
    · cases hq : availableSeatsQuery db (resolveTargetFlight fid b) 5 with
      | nil =>
        rw [unsafe_empty_window hb hq]
        exact hiff
      | cons c rest =>
        obtain ⟨db2, hbupd, hcall⟩ := unsafe_consistent_spec hids hiff hb c rest hq
        rw [hcall]
        obtain ⟨hw1, hw2, _, _, _⟩ := updateBookingSeat_ok hbupd
        exact iff_preserved_by_bind hp hiff hb hbnone (by rw [hw2]) (by rw [hw1])

/-- C2 counterexample: requester `A` already holds seat 1; the store
satisfies both invariants, a safe allocation for `A` succeeds and rebinds it
to seat 2 — and the availability-iff-bound invariant no longer holds (seat 1
stays unavailable with no live binding referencing it). -/
theorem rebinding_breaks_iff_counterexample :
    InvariantIffBound
      ⟨[], [⟨1, 1, "10A", "ECONOMY", false, 100⟩, ⟨2, 1, "10B", "ECONOMY", true, 100⟩],
        [⟨1, "A", 1, 1, some 1, true, "CONFIRMED"⟩]⟩ ∧
    AtMostOneBinding
      ⟨[], [⟨1, 1, "10A", "ECONOMY", false, 100⟩, ⟨2, 1, "10B", "ECONOMY", true, 100⟩],
        [⟨1, "A", 1, 1, some 1, true, "CONFIRMED"⟩]⟩ ∧
    (selectNextAvailableSeatSafe
      ⟨[], [⟨1, 1, "10A", "ECONOMY", false, 100⟩, ⟨2, 1, "10B", "ECONOMY", true, 100⟩],
        [⟨1, "A", 1, 1, some 1, true, "CONFIRMED"⟩]⟩ "A" none).2 =
      .ok ⟨true, "10B", 2, "safe", none⟩ ∧
    ¬ InvariantIffBound (selectNextAvailableSeatSafe
      ⟨[], [⟨1, 1, "10A", "ECONOMY", false, 100⟩, ⟨2, 1, "10B", "ECONOMY", true, 100⟩],
        [⟨1, "A", 1, 1, some 1, true, "CONFIRMED"⟩]⟩ "A" none).1 :=
  ⟨by decide, by decide, rfl, by decide⟩

/-- C2 witness: the amended preservation at a concrete consistent store with
an unbound requester. -/
theorem engine_binding_invariants_witness :
    InvariantIffBound (selectNextAvailableSeatSafe
      ⟨[], [⟨1, 1, "10A", "ECONOMY", true, 100⟩],
        [⟨1, "A", 1, 1, none, false, "CONFIRMED"⟩]⟩ "A" none).1 ∧
    AtMostOneBinding (selectNextAvailableSeatSafe
      ⟨[], [⟨1, 1, "10A", "ECONOMY", true, 100⟩],
        [⟨1, "A", 1, 1, none, false, "CONFIRMED"⟩]⟩ "A" none).1 := by
  have h := engine_binding_invariants
    ⟨[], [⟨1, 1, "10A", "ECONOMY", true, 100⟩],
      [⟨1, "A", 1, 1, none, false, "CONFIRMED"⟩]⟩ "A" none
  exact ⟨(h.2.2 ⟨1, "A", 1, 1, none, false, "CONFIRMED"⟩ (by decide) (by decide) (by decide)
      rfl rfl).1,
    (h.1 (by decide) (by decide)).1⟩

/-! ## Support for the ordering claims -/

theorem strLe_refl (a : String) : strLe a a = true := by
  unfold strLe
  induction a.data with
  | nil => rfl
  | cons c cs ih => simpa [strLeAux] using ih

/-- The seat numbers of a flight's seat rows. -/
def NumsOfFlight (db : DBState) (f : Nat) : List String :=
  (db.seats.filter (fun s => s.flightId == f)).map Seat.seatNumber

/-- With no concurrent lock held, the skip-locked selection is the head of
the sorted pool. -/
theorem selectSkipLocked_nil (db : DBState) (f : Nat) :
    selectSkipLocked db f [] = (List.insertionSort seatLe (seatsPool db f)).head? := by
  unfold selectSkipLocked seatsPool
  have hfil : db.seats.filter
      (fun s => s.flightId == f && s.isAvailable && !(([] : List Nat).contains s.id)) =
      db.seats.filter (fun s => s.flightId == f && s.isAvailable) :=
    List.filter_congr (fun a _ => by simp)
  rw [hfil]

theorem head?_take_five {l : List Seat} : (l.take 5).head? = l.head? := by
  cases l <;> rfl

/-- The head of a sorted list is below every member. -/
theorem head?_sorted_le {l : List Seat} {a : Seat} (hsort : List.Pairwise seatLe l)
    (h : l.head? = some a) : ∀ t ∈ l, a = t ∨ seatLe a t := by
  cases l with
  | nil => cases h
  | cons x xs =>
    rw [List.head?_cons, Option.some.injEq] at h
    subst h
    intro t ht
    rcases List.mem_cons.mp ht with h1 | h2
    · exact Or.inl h1.symm
    · exact Or.inr ((List.pairwise_cons.mp hsort).1 t h2)

/-- Membership in a pool after the one-seat flip: the seats of the pool
except those carrying the flipped id. -/
theorem mem_pool_flip {l : List Seat} {sid f : Nat} {t : Seat} :
    t ∈ (flipSeatUnavailable l sid).filter (fun s => s.flightId == f && s.isAvailable) ↔
      (t ∈ l.filter (fun s => s.flightId == f && s.isAvailable) ∧ t.id ≠ sid) := by
  constructor
  · intro h
    rw [List.mem_filter] at h
    obtain ⟨hm, hp⟩ := h
    unfold flipSeatUnavailable at hm
    obtain ⟨u, hu, heq⟩ := List.mem_map.mp hm
    by_cases hid : (u.id == sid) = true
    · rw [if_pos hid] at heq
      rw [← heq] at hp
      simp at hp
    · rw [if_neg hid] at heq
      subst heq
      exact ⟨List.mem_filter.mpr ⟨hu, hp⟩, by simpa using hid⟩
  · rintro ⟨h, hne⟩
    rw [List.mem_filter] at h
    rw [List.mem_filter]
    refine ⟨?_, h.2⟩
    unfold flipSeatUnavailable
    rw [List.mem_map]
    exact ⟨t, h.1, by rw [if_neg (by simpa using hne)]⟩

/-- The one-seat flip does not change a flight's seat-number column. -/
theorem numsOfFlight_flip {l : List Seat} {sid f : Nat} :
    ((flipSeatUnavailable l sid).filter (fun s => s.flightId == f)).map Seat.seatNumber =
      (l.filter (fun s => s.flightId == f)).map Seat.seatNumber := by
  induction l with
  | nil => rfl
  | cons a l ih =>
    unfold flipSeatUnavailable at ih ⊢
    rw [List.map_cons]
    by_cases hid : (a.id == sid) = true
    · rw [if_pos hid]
      by_cases hf : (a.flightId == f) = true
      · rw [List.filter_cons_of_pos (by simpa using hf),
          List.filter_cons_of_pos (by simpa using hf), List.map_cons, List.map_cons, ih]
      · rw [List.filter_cons_of_neg (by simpa using hf),
          List.filter_cons_of_neg (by simpa using hf), ih]
    · rw [if_neg hid]
      by_cases hf : (a.flightId == f) = true
      · rw [List.filter_cons_of_pos (by simpa using hf),
          List.filter_cons_of_pos (by simpa using hf), List.map_cons, List.map_cons, ih]
      · rw [List.filter_cons_of_neg (by simpa using hf),
          List.filter_cons_of_neg (by simpa using hf), ih]

/-- A sequence of safe calls against pool `f`, collecting the seat numbers of
the successful binds in order. -/
def runSafeSeq (f : Nat) : List String → DBState → DBState × List String
  | [], db => (db, [])
  | pnr :: rest, db =>
    match selectNextAvailableSeatSafe db pnr (some f) with
    | (db1, .ok r) =>
      ((runSafeSeq f rest db1).1, r.seatNumber :: (runSafeSeq f rest db1).2)
    | (db1, .error _) => runSafeSeq f rest db1

/-- Strictly-ascending order on the ordering key. -/
def strLt (a b : String) : Prop :=
  strLe a b = true ∧ a ≠ b

/-- Core of the determinism claim: with distinct seat numbers in the pool,
the successful binds of a sequence of safe calls come out strictly
ascending, and all of them are seats of the initial pool. -/
theorem runSafeSeq_spec (f : Nat) (hf : f ≠ 0) :
    ∀ (pnrs : List String) (db : DBState), (NumsOfFlight db f).Nodup →
      List.Pairwise strLt (runSafeSeq f pnrs db).2 ∧
      (∀ x ∈ (runSafeSeq f pnrs db).2, ∃ t ∈ seatsPool db f, t.seatNumber = x) := by
  intro pnrs
  induction pnrs with
  | nil =>
    intro db _
    exact ⟨List.Pairwise.nil, by intro x hx; cases hx⟩
  | cons pnr rest ih =>
    intro db hnums
    cases hcall : selectNextAvailableSeatSafe db pnr (some f) with
    | mk dbn res =>
      cases res with
      | error e =>
        have h2 : (selectNextAvailableSeatSafe db pnr (some f)).2 = .error e := by rw [hcall]
        have h1 := safe_error_state db pnr (some f) e h2
        rw [hcall] at h1
        have h3 : dbn = db := h1
        have hrun : runSafeSeq f (pnr :: rest) db = runSafeSeq f rest dbn := by
          conv_lhs => rw [runSafeSeq]
          rw [hcall]
        rw [hrun, h3]
        exact ih db hnums
      | ok r =>
        obtain ⟨b0, seat, hb0, hs, hr, db1, hu, hw⟩ := safe_ok_spec hcall
        rw [resolveTargetFlight_pos hf] at hs
        have hrun : runSafeSeq f (pnr :: rest) db =
            ((runSafeSeq f rest dbn).1, r.seatNumber :: (runSafeSeq f rest dbn).2) := by
          conv_lhs => rw [runSafeSeq]
          rw [hcall]
        obtain ⟨hw1, hw2, _, _, _⟩ := updateBookingSeat_ok hw
        obtain ⟨hu1, hu2, _⟩ := updateSeatUnavailable_ok hu
        have hseats : dbn.seats = flipSeatUnavailable db.seats seat.id := by
          rw [hw2, hu1]
        have hnumsn : (NumsOfFlight dbn f).Nodup := by
          unfold NumsOfFlight
          rw [hseats, numsOfFlight_flip]
          exact hnums
        have hmf := selectSkipLocked_mem hs
        have hpool : seat ∈ seatsPool db f := by
          unfold seatsPool
          rw [List.mem_filter]
          exact ⟨hmf.1, by simp [hmf.2.1, hmf.2.2.1]⟩
        have hmin0 := head?_sorted_le (List.sorted_insertionSort seatLe (seatsPool db f))
          (by rw [← selectSkipLocked_nil]; exact hs)
        have hmin : ∀ t ∈ seatsPool db f, seat = t ∨ seatLe seat t := fun t ht =>
          hmin0 t ((List.mem_insertionSort seatLe).mpr ht)
        have hpooln : ∀ t, t ∈ seatsPool dbn f → t ∈ seatsPool db f ∧ t.id ≠ seat.id := by
          intro t ht
          unfold seatsPool at ht
          rw [hseats] at ht
          exact mem_pool_flip.mp ht
        obtain ⟨ihp, ihm⟩ := ih dbn hnumsn
        rw [hrun]
        constructor
        · rw [List.pairwise_cons]
          refine ⟨?_, ihp⟩
          intro x hx
          obtain ⟨t, ht, htx⟩ := ihm x hx
          obtain ⟨htdb, htid⟩ := hpooln t ht
          have hle : seatLe seat t := by
            rcases hmin t htdb with heq | hle
            · exact absurd (congrArg Seat.id heq) (Ne.symm htid)
            · exact hle
          have hmemf : ∀ u : Seat, u ∈ seatsPool db f →
              u ∈ db.seats.filter (fun s => s.flightId == f) := by
            intro u hu
            unfold seatsPool at hu
            rw [List.mem_filter] at hu ⊢
            refine ⟨hu.1, ?_⟩
            have := hu.2
            rw [Bool.and_eq_true] at this
            exact this.1
          have hneq : seat.seatNumber ≠ t.seatNumber := by
            intro heq
            exact htid (congrArg Seat.id
              (List.inj_on_of_nodup_map hnums (hmemf seat hpool) (hmemf t htdb) heq).symm)
          have hgoal : strLt seat.seatNumber x := by
            rw [← htx]
            exact ⟨hle, hneq⟩
          rw [hr]
          exact hgoal
        · intro x hx
          rcases List.mem_cons.mp hx with h1 | h2
          · exact ⟨seat, hpool, by rw [h1, hr]⟩
          · obtain ⟨t, ht, htx⟩ := ihm x h2
            exact ⟨t, (hpooln t ht).1, htx⟩

/-! ## Claim C6: both policies fill in ascending ordering-key order -/

/-- C6: both allocation policies draw candidates from the same
ascending-ordered query — the safe policy's uncontended selection is exactly
the head of the unsafe policy's candidate window — and, with no contention,
a sequence of safe calls binds seats in strictly ascending ordering-key
order (low seat numbers fill first). -/
theorem policies_agree_on_order_and_fill_ascending (db : DBState) (f : Nat)
    (pnrs : List String) (hf : f ≠ 0) (hnums : (NumsOfFlight db f).Nodup) :
    selectSkipLocked db f [] = (availableSeatsQuery db f 5).head? ∧
    List.Pairwise strLt (runSafeSeq f pnrs db).2 := by
  constructor
  · rw [selectSkipLocked_nil]
    unfold availableSeatsQuery
    rw [head?_take_five]
  · exact (runSafeSeq_spec f hf pnrs db hnums).1

/-- C6 witness: two sequential safe calls on a two-seat pool bind 10A then
10B — strictly ascending. -/
theorem policies_agree_on_order_witness :
    (runSafeSeq 1 ["A", "B"]
        ⟨[], [⟨2, 1, "10B", "ECONOMY", true, 100⟩, ⟨1, 1, "10A", "ECONOMY", true, 100⟩],
          [⟨1, "A", 1, 1, none, false, "CONFIRMED"⟩,
           ⟨2, "B", 1, 2, none, false, "CONFIRMED"⟩]⟩).2 = ["10A", "10B"] ∧
    List.Pairwise strLt (runSafeSeq 1 ["A", "B"]
        ⟨[], [⟨2, 1, "10B", "ECONOMY", true, 100⟩, ⟨1, 1, "10A", "ECONOMY", true, 100⟩],
          [⟨1, "A", 1, 1, none, false, "CONFIRMED"⟩,
           ⟨2, "B", 1, 2, none, false, "CONFIRMED"⟩]⟩).2 := by
  refine ⟨rfl, ?_⟩
  exact (policies_agree_on_order_and_fill_ascending
    ⟨[], [⟨2, 1, "10B", "ECONOMY", true, 100⟩, ⟨1, 1, "10A", "ECONOMY", true, 100⟩],
      [⟨1, "A", 1, 1, none, false, "CONFIRMED"⟩,
       ⟨2, "B", 1, 2, none, false, "CONFIRMED"⟩]⟩ 1 ["A", "B"]
    (by decide) (by decide)).2

/-! ## Claim C7: administrative reset -/

/-- C7: after the administrative reset (`POST /admin/reset-all-seats`),
executed as one transactional unit, every seat's availability flag is true
(so a flight's `availableCount` equals its total seat count), and every
booking's seat identity is null with its checked-in flag false. -/
theorem resetAllSeats_restores_pool (db : DBState) :
    (∀ s ∈ (resetAllSeats db).1.seats, s.isAvailable = true) ∧
    (∀ b ∈ (resetAllSeats db).1.bookings, b.seatId = none ∧ b.checkedIn = false) ∧
    (∀ fn m, getFlightSeatMap (resetAllSeats db).1 fn = .ok m →
      m.availableCount = m.seats.length) := by
  refine ⟨?_, ?_, ?_⟩
  · intro s hs
    simp only [resetAllSeats, List.mem_map] at hs
    obtain ⟨t, _, rfl⟩ := hs
    rfl
  · intro b hb
    simp only [resetAllSeats, List.mem_map] at hb
    obtain ⟨t, _, rfl⟩ := hb
    exact ⟨rfl, rfl⟩
  · intro fn m hm
    unfold getFlightSeatMap at hm
    cases hf : (resetAllSeats db).1.flights.find? (fun f => f.flightNumber == fn) with
    | none => rw [hf] at hm; simp at hm
    | some f =>
      rw [hf] at hm
      cases hm
      simp only
      rw [List.filter_length_eq_length.mpr]
      intro a ha
      rw [List.mem_insertionSort, List.mem_filter] at ha
      have hmem := ha.1
      simp only [resetAllSeats, List.mem_map] at hmem
      obtain ⟨t, _, rfl⟩ := hmem
      rfl

/-! ## Claim C3: a failed safe call rolls back -/

/-- C3: a failed `selectNextAvailableSeatSafe` call — any error kind — leaves
the store exactly as it was: the transaction rolls back and no partial state
persists, so every seat's availability flag and the requester's binding are
unchanged. -/
theorem safe_failed_call_rolls_back (db : DBState) (pnr : String) (fid : Option Nat)
    (e : Err) (h : (selectNextAvailableSeatSafe db pnr fid).2 = .error e) :
    (selectNextAvailableSeatSafe db pnr fid).1 = db := by
  unfold selectNextAvailableSeatSafe at h ⊢
  cases hb : safeTxBody db pnr fid [] with
  | error e2 => rfl
  | ok p =>
    rw [hb] at h
    cases p
    simp at h

/-- C3 witness: a concrete failing safe call (unknown requester against an
empty store) leaves the store unchanged. -/
theorem safe_failed_call_rolls_back_witness :
    (selectNextAvailableSeatSafe ⟨[], [], []⟩ "Z" none).1 = ⟨[], [], []⟩ :=
  safe_failed_call_rolls_back ⟨[], [], []⟩ "Z" none
    ⟨.unknownRequester, "Invalid PNR"⟩ rfl

/-! ## Concurrency model for the safe policy

Each in-flight safe invocation is one process.  Its externally visible
behavior is: acquire the skip-locked row (`selectSkipLocked`, seeing the
committed store and skipping rows locked by the other in-flight
transactions), then commit the two writes atomically — uncommitted writes of
an interactive transaction are invisible to other transactions, so the
commit is one step.  A process that finds no booking or no lockable
available row fails (rolls back).  Interleaving is arbitrary. -/

/-- The phase of one in-flight safe invocation. -/
inductive Phase where
  | ready
  | holding (sid : Nat)
  | bound (sid : Nat)
  | failed
deriving DecidableEq

/-- One in-flight safe invocation: its requester reference and phase. -/
structure Proc where
  pnr : String
  phase : Phase
deriving DecidableEq

/-- The concurrent system: the committed store plus the in-flight
invocations. -/
structure CState where
  db : DBState
  procs : List Proc
deriving DecidableEq

/-- Seat rows currently locked by in-flight transactions. -/
def lockedSeatIds (ps : List Proc) : List Nat :=
  ps.filterMap (fun p => match p.phase with | .holding sid => some sid | _ => none)

/-- Seat rows bound by committed invocations. -/
def boundSeatIds (ps : List Proc) : List Nat :=
  ps.filterMap (fun p => match p.phase with | .bound sid => some sid | _ => none)

/-- Seat rows claimed by an invocation, locked or already committed. -/
def allSeatIds (ps : List Proc) : List Nat :=
  ps.filterMap (fun p =>
    match p.phase with
    | .holding sid => some sid
    | .bound sid => some sid
    | _ => none)

/-- The commit of the safe transaction: the unconditional seat update
followed by the binding write, atomically. -/
def commitTx (db : DBState) (pnr : String) (sid : Nat) : Except Err DBState :=
  match updateSeatUnavailable db sid with
  | .error e => .error e
  | .ok db1 => updateBookingSeat db1 pnr sid

/-- One interleaving step of the concurrent system: some ready invocation
looks up its booking and selects (locking it) the least available unlocked
seat of its booked flight, or fails when it cannot; some lock-holding
invocation commits. -/
inductive CStep : CState → CState → Prop where
  | lock (db : DBState) (l₁ l₂ : List Proc) (pnr : String) (b : Booking) (seat : Seat) :
      findBooking db pnr = some b →
      selectSkipLocked db b.flightId
        (lockedSeatIds (l₁ ++ ⟨pnr, .ready⟩ :: l₂)) = some seat →
      CStep ⟨db, l₁ ++ ⟨pnr, .ready⟩ :: l₂⟩ ⟨db, l₁ ++ ⟨pnr, .holding seat.id⟩ :: l₂⟩
  | failNoBooking (db : DBState) (l₁ l₂ : List Proc) (pnr : String) :
      findBooking db pnr = none →
      CStep ⟨db, l₁ ++ ⟨pnr, .ready⟩ :: l₂⟩ ⟨db, l₁ ++ ⟨pnr, .failed⟩ :: l₂⟩
  | failPool (db : DBState) (l₁ l₂ : List Proc) (pnr : String) (b : Booking) :
      findBooking db pnr = some b →
      selectSkipLocked db b.flightId
        (lockedSeatIds (l₁ ++ ⟨pnr, .ready⟩ :: l₂)) = none →
      CStep ⟨db, l₁ ++ ⟨pnr, .ready⟩ :: l₂⟩ ⟨db, l₁ ++ ⟨pnr, .failed⟩ :: l₂⟩
  | commitOk (db : DBState) (l₁ l₂ : List Proc) (pnr : String) (sid : Nat) (db' : DBState) :
      commitTx db pnr sid = .ok db' →
      CStep ⟨db, l₁ ++ ⟨pnr, .holding sid⟩ :: l₂⟩ ⟨db', l₁ ++ ⟨pnr, .bound sid⟩ :: l₂⟩
  | commitErr (db : DBState) (l₁ l₂ : List Proc) (pnr : String) (sid : Nat) (e : Err) :
      commitTx db pnr sid = .error e →
      CStep ⟨db, l₁ ++ ⟨pnr, .holding sid⟩ :: l₂⟩ ⟨db, l₁ ++ ⟨pnr, .failed⟩ :: l₂⟩

/-- Arbitrary interleavings: the reflexive-transitive closure of `CStep`. -/
def CReach : CState → CState → Prop :=
  Relation.ReflTransGen CStep

/-- No invocation can take a further step. -/
def Terminal (s : CState) : Prop :=
  ∀ s', ¬ CStep s s'

/-- Every live binding's seat is flagged unavailable. -/
def BoundUnavail (db : DBState) : Prop :=
  ∀ b ∈ db.bookings, ∀ seat ∈ db.seats, b.seatId = some seat.id → seat.isAvailable = false

instance (db : DBState) : Decidable (BoundUnavail db) := by
  unfold BoundUnavail
  infer_instance

/-- The initial condition of the safety claim: a wellformed store, distinct
requesters all provisioned with an unbound booking on flight `f`, every
invocation ready. -/
def InitOK (f : Nat) (s : CState) : Prop :=
  SeatIdsNodup s.db ∧ PnrsNodup s.db ∧ AtMostOneBinding s.db ∧
  BoundUnavail s.db ∧
  (s.procs.map Proc.pnr).Nodup ∧
  (∀ p ∈ s.procs, p.phase = .ready) ∧
  (∀ p ∈ s.procs, (findBooking s.db p.pnr).any
      (fun b => b.flightId == f && b.seatId == none) = true)

instance (f : Nat) (s : CState) : Decidable (InitOK f s) := by
  unfold InitOK
  infer_instance

/-- The inductive invariant of the concurrent system. -/
structure CInv (f : Nat) (M : Nat) (s : CState) : Prop where
  seatids : SeatIdsNodup s.db
  pnrs : PnrsNodup s.db
  dbBound : AtMostOneBinding s.db
  boundUnavail : BoundUnavail s.db
  procPnrs : (s.procs.map Proc.pnr).Nodup
  bookingOf : ∀ p ∈ s.procs, ∃ b, findBooking s.db p.pnr = some b ∧ b.flightId = f ∧
      (∀ sid, p.phase = .bound sid → b.seatId = some sid) ∧
      ((∀ sid, p.phase ≠ .bound sid) → b.seatId = none)
  holdingSeat : ∀ p ∈ s.procs, ∀ sid, p.phase = .holding sid →
      ∃ seat ∈ s.db.seats, seat.id = sid ∧ seat.flightId = f ∧ seat.isAvailable = true
  sidsNodup : (allSeatIds s.procs).Nodup
  count : availCount s.db f + (boundSeatIds s.procs).length = M
  failedBound : (∃ p ∈ s.procs, p.phase = .failed) →
      availCount s.db f ≤ (lockedSeatIds s.procs).length

/-! Bookkeeping lemmas for the concurrency model. -/

theorem flip_ids (l : List Seat) (sid : Nat) :
    (flipSeatUnavailable l sid).map Seat.id = l.map Seat.id := by
  unfold flipSeatUnavailable
  rw [List.map_map]
  apply List.map_congr_left
  intro t _
  by_cases h : (t.id == sid) = true <;> simp [Function.comp, h]

theorem map_bindUpd_pnrs (l : List Booking) (pnr : String) (sid : Nat) :
    (l.map (bindUpd pnr sid)).map Booking.pnr = l.map Booking.pnr := by
  rw [List.map_map]
  apply List.map_congr_left
  intro b _
  simp [Function.comp, bindUpd_pnr]

theorem flip_noop {l : List Seat} {sid : Nat} (h : ∀ t ∈ l, t.id ≠ sid) :
    flipSeatUnavailable l sid = l := by
  unfold flipSeatUnavailable
  induction l with
  | nil => rfl
  | cons a l ih =>
    rw [List.map_cons, if_neg (by simpa using h a (List.mem_cons_self a l)),
      ih (fun t ht => h t (List.mem_cons_of_mem a ht))]

theorem length_le_of_nodup_subset {l₁ l₂ : List Nat} (h1 : l₁.Nodup)
    (hsub : ∀ x ∈ l₁, x ∈ l₂) : l₁.length ≤ l₂.length := by
  calc l₁.length = l₁.toFinset.card := (List.toFinset_card_of_nodup h1).symm
  _ ≤ l₂.toFinset.card := Finset.card_le_card (fun x hx =>
      List.mem_toFinset.mpr (hsub x (List.mem_toFinset.mp hx)))
  _ ≤ l₂.length := List.toFinset_card_le l₂

theorem lockedSeatIds_sublist_all :
    ∀ ps : List Proc, List.Sublist (lockedSeatIds ps) (allSeatIds ps)
  | [] => List.Sublist.refl []
  | p :: ps => by
    unfold lockedSeatIds allSeatIds at *
    rw [List.filterMap_cons, List.filterMap_cons]
    cases hp : p.phase with
    | ready => exact lockedSeatIds_sublist_all ps
    | failed => exact lockedSeatIds_sublist_all ps
    | holding sid => exact List.Sublist.cons₂ sid (lockedSeatIds_sublist_all ps)
    | bound sid => exact List.Sublist.cons sid (lockedSeatIds_sublist_all ps)

theorem boundSeatIds_sublist_all :
    ∀ ps : List Proc, List.Sublist (boundSeatIds ps) (allSeatIds ps)
  | [] => List.Sublist.refl []
  | p :: ps => by
    unfold boundSeatIds allSeatIds at *
    rw [List.filterMap_cons, List.filterMap_cons]
    cases hp : p.phase with
    | ready => exact boundSeatIds_sublist_all ps
    | failed => exact boundSeatIds_sublist_all ps
    | holding sid => exact List.Sublist.cons sid (boundSeatIds_sublist_all ps)
    | bound sid => exact List.Sublist.cons₂ sid (boundSeatIds_sublist_all ps)

/-- An exhausted skip-locked selection means every available seat of the
pool is locked. -/
theorem selectSkipLocked_none {db : DBState} {f : Nat} {locked : List Nat}
    (h : selectSkipLocked db f locked = none) :
    ∀ t ∈ db.seats, t.flightId = f → t.isAvailable = true → t.id ∈ locked := by
  intro t ht htf hta
  unfold selectSkipLocked at h
  rw [List.head?_eq_none_iff] at h
  have hperm := List.perm_insertionSort seatLe
    (db.seats.filter (fun s => s.flightId == f && s.isAvailable && !(locked.contains s.id)))
  rw [h] at hperm
  have hempty := List.Perm.symm hperm
  rw [List.perm_nil] at hempty
  by_contra hmem
  have : t ∈ (db.seats.filter
      (fun s => s.flightId == f && s.isAvailable && !(locked.contains s.id))) := by
    rw [List.mem_filter]
    refine ⟨ht, ?_⟩
    simp [htf, hta, hmem]
  rw [hempty] at this
  cases this

/-- One available seat of the pool goes away under the one-seat flip. -/
theorem availCount_flip_list :
    ∀ {l : List Seat} {sid f : Nat} {seat : Seat}, (l.map Seat.id).Nodup →
      seat ∈ l → seat.id = sid → (seat.flightId == f && seat.isAvailable) = true →
      ((flipSeatUnavailable l sid).filter
          (fun s => s.flightId == f && s.isAvailable)).length + 1 =
        (l.filter (fun s => s.flightId == f && s.isAvailable)).length
  | [], _, _, _, _, hmem, _, _ => absurd hmem (List.not_mem_nil _)
  | a :: l, sid, f, seat, hids, hmem, hid, hp => by
    rw [List.map_cons, List.nodup_cons] at hids
    by_cases ha : (a.id == sid) = true
    · have haseat : seat = a := by
        rcases List.mem_cons.mp hmem with h | h
        · exact h
        · exfalso
          apply hids.1
          rw [beq_iff_eq.mp ha, ← hid]
          exact List.mem_map_of_mem Seat.id h
      have hnol : ∀ t ∈ l, t.id ≠ sid := by
        intro t htl heq
        apply hids.1
        rw [beq_iff_eq.mp ha, ← heq]
        exact List.mem_map_of_mem Seat.id htl
      have hflip : flipSeatUnavailable (a :: l) sid =
          { a with isAvailable := false } :: l := by
        unfold flipSeatUnavailable
        rw [List.map_cons, if_pos ha]
        have h2 : l.map (fun t => if t.id == sid then { t with isAvailable := false } else t)
            = l := flip_noop hnol
        unfold flipSeatUnavailable at h2
        rw [h2]
      rw [hflip, List.filter_cons, if_neg (by simp), List.filter_cons,
        if_pos (by rw [← haseat]; exact hp), List.length_cons]
    · have hseatl : seat ∈ l := by
        rcases List.mem_cons.mp hmem with h | h
        · exfalso
          apply ha
          rw [h] at hid
          simp [hid]
        · exact h
      have hflip : flipSeatUnavailable (a :: l) sid = a :: flipSeatUnavailable l sid := by
        unfold flipSeatUnavailable
        rw [List.map_cons, if_neg ha]
      rw [hflip]
      have hrec := availCount_flip_list hids.2 hseatl hid hp
      by_cases hap : (a.flightId == f && a.isAvailable) = true
      · rw [List.filter_cons, List.filter_cons, if_pos hap, if_pos hap,
          List.length_cons, List.length_cons]
        omega
      · rw [List.filter_cons, List.filter_cons, if_neg hap, if_neg hap]
        exact hrec

@[simp] theorem lockedSeatIds_nil : lockedSeatIds [] = [] := rfl

@[simp] theorem lockedSeatIds_cons_ready (pnr : String) (ps : List Proc) :
    lockedSeatIds (⟨pnr, .ready⟩ :: ps) = lockedSeatIds ps := rfl

@[simp] theorem lockedSeatIds_cons_holding (pnr : String) (sid : Nat) (ps : List Proc) :
    lockedSeatIds (⟨pnr, .holding sid⟩ :: ps) = sid :: lockedSeatIds ps := rfl

@[simp] theorem lockedSeatIds_cons_bound (pnr : String) (sid : Nat) (ps : List Proc) :
    lockedSeatIds (⟨pnr, .bound sid⟩ :: ps) = lockedSeatIds ps := rfl

@[simp] theorem lockedSeatIds_cons_failed (pnr : String) (ps : List Proc) :
    lockedSeatIds (⟨pnr, .failed⟩ :: ps) = lockedSeatIds ps := rfl

@[simp] theorem lockedSeatIds_append (l₁ l₂ : List Proc) :
    lockedSeatIds (l₁ ++ l₂) = lockedSeatIds l₁ ++ lockedSeatIds l₂ := by
  simp [lockedSeatIds]

@[simp] theorem boundSeatIds_nil : boundSeatIds [] = [] := rfl

@[simp] theorem boundSeatIds_cons_ready (pnr : String) (ps : List Proc) :
    boundSeatIds (⟨pnr, .ready⟩ :: ps) = boundSeatIds ps := rfl

@[simp] theorem boundSeatIds_cons_holding (pnr : String) (sid : Nat) (ps : List Proc) :
    boundSeatIds (⟨pnr, .holding sid⟩ :: ps) = boundSeatIds ps := rfl

@[simp] theorem boundSeatIds_cons_bound (pnr : String) (sid : Nat) (ps : List Proc) :
    boundSeatIds (⟨pnr, .bound sid⟩ :: ps) = sid :: boundSeatIds ps := rfl

@[simp] theorem boundSeatIds_cons_failed (pnr : String) (ps : List Proc) :
    boundSeatIds (⟨pnr, .failed⟩ :: ps) = boundSeatIds ps := rfl

@[simp] theorem boundSeatIds_append (l₁ l₂ : List Proc) :
    boundSeatIds (l₁ ++ l₂) = boundSeatIds l₁ ++ boundSeatIds l₂ := by
  simp [boundSeatIds]

@[simp] theorem allSeatIds_nil : allSeatIds [] = [] := rfl

@[simp] theorem allSeatIds_cons_ready (pnr : String) (ps : List Proc) :
    allSeatIds (⟨pnr, .ready⟩ :: ps) = allSeatIds ps := rfl

@[simp] theorem allSeatIds_cons_holding (pnr : String) (sid : Nat) (ps : List Proc) :
    allSeatIds (⟨pnr, .holding sid⟩ :: ps) = sid :: allSeatIds ps := rfl

@[simp] theorem allSeatIds_cons_bound (pnr : String) (sid : Nat) (ps : List Proc) :
    allSeatIds (⟨pnr, .bound sid⟩ :: ps) = sid :: allSeatIds ps := rfl

@[simp] theorem allSeatIds_cons_failed (pnr : String) (ps : List Proc) :
    allSeatIds (⟨pnr, .failed⟩ :: ps) = allSeatIds ps := rfl

@[simp] theorem allSeatIds_append (l₁ l₂ : List Proc) :
    allSeatIds (l₁ ++ l₂) = allSeatIds l₁ ++ allSeatIds l₂ := by
  simp [allSeatIds]

theorem mem_lockedSeatIds {ps : List Proc} {y : Nat} :
    y ∈ lockedSeatIds ps ↔ ∃ q ∈ ps, q.phase = .holding y := by
  unfold lockedSeatIds
  rw [List.mem_filterMap]
  constructor
  · rintro ⟨q, hq, hm⟩
    refine ⟨q, hq, ?_⟩
    cases hph : q.phase <;> rw [hph] at hm <;> simp at hm
    rw [hm]
  · rintro ⟨q, hq, hph⟩
    exact ⟨q, hq, by rw [hph]⟩

theorem mem_allSeatIds {ps : List Proc} {y : Nat} :
    y ∈ allSeatIds ps ↔ ∃ q ∈ ps, q.phase = .holding y ∨ q.phase = .bound y := by
  unfold allSeatIds
  rw [List.mem_filterMap]
  constructor
  · rintro ⟨q, hq, hm⟩
    refine ⟨q, hq, ?_⟩
    cases hph : q.phase <;> rw [hph] at hm <;> simp at hm
    · exact Or.inl (by rw [hm])
    · exact Or.inr (by rw [hm])
  · rintro ⟨q, hq, hph | hph⟩ <;> exact ⟨q, hq, by rw [hph]⟩

theorem nodup_middle {X Y : List Nat} {a : Nat} :
    (X ++ a :: Y).Nodup ↔ a ∉ (X ++ Y) ∧ (X ++ Y).Nodup := by
  rw [List.Perm.nodup_iff List.perm_middle, List.nodup_cons]

/-- The middle proc's requester reference appears nowhere else. -/
theorem middle_pnr_not_elsewhere {l₁ l₂ : List Proc} {p : Proc}
    (h : ((l₁ ++ p :: l₂).map Proc.pnr).Nodup) :
    ∀ q ∈ l₁ ++ l₂, q.pnr ≠ p.pnr := by
  rw [List.map_append, List.map_cons] at h
  have h2 := (List.Perm.nodup_iff List.perm_middle).mp h
  rw [List.nodup_cons] at h2
  intro q hq heq
  apply h2.1
  rw [← List.map_append, ← heq]
  exact List.mem_map_of_mem Proc.pnr hq

theorem allSeatIds_eq_nil {ps : List Proc} (h : ∀ p ∈ ps, p.phase = .ready) :
    allSeatIds ps = [] := by
  induction ps with
  | nil => rfl
  | cons p ps ih =>
    obtain ⟨pnr, ph⟩ := p
    have hp : ph = .ready := h ⟨pnr, ph⟩ (List.mem_cons_self _ _)
    subst hp
    rw [allSeatIds_cons_ready]
    exact ih (fun q hq => h q (List.mem_cons_of_mem _ hq))

theorem boundSeatIds_eq_nil {ps : List Proc} (h : ∀ p ∈ ps, p.phase = .ready) :
    boundSeatIds ps = [] := by
  induction ps with
  | nil => rfl
  | cons p ps ih =>
    obtain ⟨pnr, ph⟩ := p
    have hp : ph = .ready := h ⟨pnr, ph⟩ (List.mem_cons_self _ _)
    subst hp
    rw [boundSeatIds_cons_ready]
    exact ih (fun q hq => h q (List.mem_cons_of_mem _ hq))

/-- The invariant holds initially, with `M` the initial available count. -/
theorem cinv_init {f : Nat} {s : CState} (h : InitOK f s) :
    CInv f (availCount s.db f) s := by
  obtain ⟨hids, hpnrs, hbound, hbu, hppnrs, hready, hbk⟩ := h
  refine ⟨hids, hpnrs, hbound, hbu, hppnrs, ?_, ?_, ?_, ?_, ?_⟩
  · intro p hp
    have hb := hbk p hp
    cases hfb : findBooking s.db p.pnr with
    | none =>
      rw [hfb] at hb
      cases hb
    | some b =>
      rw [hfb] at hb
      simp only [Option.any, Bool.and_eq_true, beq_iff_eq] at hb
      refine ⟨b, rfl, hb.1, ?_, ?_⟩
      · intro sid hph
        rw [hready p hp] at hph
        cases hph
      · intro _
        exact hb.2
  · intro p hp sid hph
    rw [hready p hp] at hph
    cases hph
  · rw [allSeatIds_eq_nil hready]
    exact List.nodup_nil
  · rw [boundSeatIds_eq_nil hready]
    rfl
  · rintro ⟨p, hp, hph⟩
    rw [hready p hp] at hph
    cases hph

theorem cinv_step_lock {f M : Nat} {db : DBState} {l₁ l₂ : List Proc} {pnr : String}
    {b : Booking} {seat : Seat}
    (hinv : CInv f M ⟨db, l₁ ++ ⟨pnr, .ready⟩ :: l₂⟩)
    (hfind : findBooking db pnr = some b)
    (hsel : selectSkipLocked db b.flightId
      (lockedSeatIds (l₁ ++ ⟨pnr, .ready⟩ :: l₂)) = some seat) :
    CInv f M ⟨db, l₁ ++ ⟨pnr, .holding seat.id⟩ :: l₂⟩ := by
  have hmid : (⟨pnr, Phase.ready⟩ : Proc) ∈ l₁ ++ ⟨pnr, Phase.ready⟩ :: l₂ :=
    List.mem_append_right _ (List.mem_cons_self _ _)
  obtain ⟨b0, hb0, hb0f, _, hb0none⟩ := hinv.bookingOf _ hmid
  have hb0n : b0.seatId = none := hb0none (fun sid0 h => by simp at h)
  have hbb : b = b0 := by
    have h := hb0
    rw [hfind] at h
    exact (Option.some.injEq _ _).mp h
  have hselmem := selectSkipLocked_mem hsel
  have hsf : seat.flightId = f := by rw [hselmem.2.1, hbb, hb0f]
  have hnotlocked : seat.id ∉ lockedSeatIds (l₁ ++ ⟨pnr, Phase.ready⟩ :: l₂) := by
    intro hmem
    have hcontains := hselmem.2.2.2
    rw [List.contains_eq_any_beq] at hcontains
    rw [Bool.eq_false_iff] at hcontains
    apply hcontains
    rw [List.any_eq_true]
    exact ⟨seat.id, hmem, by simp⟩
  have hnotall : seat.id ∉ allSeatIds (l₁ ++ ⟨pnr, Phase.ready⟩ :: l₂) := by
    intro hmem
    rcases mem_allSeatIds.mp hmem with ⟨q, hq, hqh | hqb⟩
    · exact hnotlocked (mem_lockedSeatIds.mpr ⟨q, hq, hqh⟩)
    · obtain ⟨bq, hbq, _, hbqb, _⟩ := hinv.bookingOf q hq
      have hbqs : bq.seatId = some seat.id := hbqb seat.id hqb
      have hbqmem : bq ∈ db.bookings := List.mem_of_find?_eq_some hbq
      have hun := hinv.boundUnavail bq hbqmem seat hselmem.1 hbqs
      rw [hselmem.2.2.1] at hun
      cases hun
  refine ⟨hinv.seatids, hinv.pnrs, hinv.dbBound, hinv.boundUnavail, ?_, ?_, ?_, ?_, ?_, ?_⟩
  · simpa using hinv.procPnrs
  · intro p hp
    rcases List.mem_append.mp hp with hpl | hpr
    · exact hinv.bookingOf p (List.mem_append_left _ hpl)
    · rcases List.mem_cons.mp hpr with hpm | hpl₂
      · subst hpm
        exact ⟨b0, hb0, hb0f, fun sid0 h => by simp at h, fun _ => hb0n⟩
      · exact hinv.bookingOf p
          (List.mem_append_right _ (List.mem_cons_of_mem _ hpl₂))
  · intro p hp sid0 hph
    rcases List.mem_append.mp hp with hpl | hpr
    · exact hinv.holdingSeat p (List.mem_append_left _ hpl) sid0 hph
    · rcases List.mem_cons.mp hpr with hpm | hpl₂
      · subst hpm
        have hph' : Phase.holding seat.id = Phase.holding sid0 := hph
        injection hph' with h2
        subst h2
        exact ⟨seat, hselmem.1, rfl, hsf, hselmem.2.2.1⟩
      · exact hinv.holdingSeat p
          (List.mem_append_right _ (List.mem_cons_of_mem _ hpl₂)) sid0 hph
  · simp only [allSeatIds_append, allSeatIds_cons_holding]
    rw [nodup_middle]
    have hold := hinv.sidsNodup
    simp only [allSeatIds_append, allSeatIds_cons_ready] at hold
    refine ⟨?_, hold⟩
    intro hmem
    apply hnotall
    simp only [allSeatIds_append, allSeatIds_cons_ready]
    exact hmem
  · have hc := hinv.count
    simp only [boundSeatIds_append, boundSeatIds_cons_ready] at hc
    simp only [boundSeatIds_append, boundSeatIds_cons_holding]
    exact hc
  · rintro ⟨p, hp, hph⟩
    have hmemold : p ∈ l₁ ++ ⟨pnr, Phase.ready⟩ :: l₂ := by
      rcases List.mem_append.mp hp with h | h
      · exact List.mem_append_left _ h
      · rcases List.mem_cons.mp h with hm | h2
        · subst hm
          simp at hph
        · exact List.mem_append_right _ (List.mem_cons_of_mem _ h2)
    have hold := hinv.failedBound ⟨p, hmemold, hph⟩
    simp only [lockedSeatIds_append, lockedSeatIds_cons_ready, List.length_append] at hold
    simp only [lockedSeatIds_append, lockedSeatIds_cons_holding, List.length_append,
      List.length_cons]
    omega

theorem cinv_step_failNoBooking {f M : Nat} {db : DBState} {l₁ l₂ : List Proc}
    {pnr : String} (hinv : CInv f M ⟨db, l₁ ++ ⟨pnr, .ready⟩ :: l₂⟩)
    (hfind : findBooking db pnr = none) : False := by
  have hmid : (⟨pnr, Phase.ready⟩ : Proc) ∈ l₁ ++ ⟨pnr, Phase.ready⟩ :: l₂ :=
    List.mem_append_right _ (List.mem_cons_self _ _)
  obtain ⟨b0, hb0, _, _, _⟩ := hinv.bookingOf _ hmid
  rw [hfind] at hb0
  cases hb0

theorem cinv_step_failPool {f M : Nat} {db : DBState} {l₁ l₂ : List Proc} {pnr : String}
    {b : Booking}
    (hinv : CInv f M ⟨db, l₁ ++ ⟨pnr, .ready⟩ :: l₂⟩)
    (hfind : findBooking db pnr = some b)
    (hsel : selectSkipLocked db b.flightId
      (lockedSeatIds (l₁ ++ ⟨pnr, .ready⟩ :: l₂)) = none) :
    CInv f M ⟨db, l₁ ++ ⟨pnr, .failed⟩ :: l₂⟩ := by
  have hmid : (⟨pnr, Phase.ready⟩ : Proc) ∈ l₁ ++ ⟨pnr, Phase.ready⟩ :: l₂ :=
    List.mem_append_right _ (List.mem_cons_self _ _)
  obtain ⟨b0, hb0, hb0f, _, hb0none⟩ := hinv.bookingOf _ hmid
  have hb0n : b0.seatId = none := hb0none (fun sid0 h => by simp at h)
  have hbb : b = b0 := by
    have h := hb0
    rw [hfind] at h
    exact (Option.some.injEq _ _).mp h
  have hbf : b.flightId = f := by rw [hbb, hb0f]
  refine ⟨hinv.seatids, hinv.pnrs, hinv.dbBound, hinv.boundUnavail, ?_, ?_, ?_, ?_, ?_, ?_⟩
  · simpa using hinv.procPnrs
  · intro p hp
    rcases List.mem_append.mp hp with hpl | hpr
    · exact hinv.bookingOf p (List.mem_append_left _ hpl)
    · rcases List.mem_cons.mp hpr with hpm | hpl₂
      · subst hpm
        exact ⟨b0, hb0, hb0f, fun sid0 h => by simp at h, fun _ => hb0n⟩
      · exact hinv.bookingOf p
          (List.mem_append_right _ (List.mem_cons_of_mem _ hpl₂))
  · intro p hp sid0 hph
    rcases List.mem_append.mp hp with hpl | hpr
    · exact hinv.holdingSeat p (List.mem_append_left _ hpl) sid0 hph
    · rcases List.mem_cons.mp hpr with hpm | hpl₂
      · subst hpm
        simp at hph
      · exact hinv.holdingSeat p
          (List.mem_append_right _ (List.mem_cons_of_mem _ hpl₂)) sid0 hph
  · have hold := hinv.sidsNodup
    simp only [allSeatIds_append, allSeatIds_cons_ready] at hold
    simp only [allSeatIds_append, allSeatIds_cons_failed]
    exact hold
  · have hc := hinv.count
    simp only [boundSeatIds_append, boundSeatIds_cons_ready] at hc
    simp only [boundSeatIds_append, boundSeatIds_cons_failed]
    exact hc
  · rintro ⟨p, hp, hph⟩
    have hsub := selectSkipLocked_none hsel
    have hnodup_ids : ((seatsPool db f).map Seat.id).Nodup :=
      List.Nodup.sublist (List.Sublist.map Seat.id (List.filter_sublist db.seats))
        hinv.seatids
    have hsubset : ∀ x ∈ (seatsPool db f).map Seat.id,
        x ∈ lockedSeatIds (l₁ ++ ⟨pnr, Phase.ready⟩ :: l₂) := by
      intro x hx
      obtain ⟨t, htp, htx⟩ := List.mem_map.mp hx
      unfold seatsPool at htp
      rw [List.mem_filter, Bool.and_eq_true, beq_iff_eq] at htp
      rw [← htx]
      exact hsub t htp.1 (by rw [htp.2.1, hbf]) htp.2.2
    have hlen := length_le_of_nodup_subset hnodup_ids hsubset
    rw [List.length_map] at hlen
    have hlen2 : availCount db f ≤
        (lockedSeatIds (l₁ ++ ⟨pnr, Phase.ready⟩ :: l₂)).length := hlen
    simp only [lockedSeatIds_append, lockedSeatIds_cons_ready, List.length_append] at hlen2
    simp only [lockedSeatIds_append, lockedSeatIds_cons_failed, List.length_append]
    exact hlen2

theorem cinv_step_commitOk {f M : Nat} {db db' : DBState} {l₁ l₂ : List Proc}
    {pnr : String} {sid : Nat}
    (hinv : CInv f M ⟨db, l₁ ++ ⟨pnr, .holding sid⟩ :: l₂⟩)
    (hcommit : commitTx db pnr sid = .ok db') :
    CInv f M ⟨db', l₁ ++ ⟨pnr, .bound sid⟩ :: l₂⟩ := by
  have hmid : (⟨pnr, Phase.holding sid⟩ : Proc) ∈ l₁ ++ ⟨pnr, Phase.holding sid⟩ :: l₂ :=
    List.mem_append_right _ (List.mem_cons_self _ _)
  obtain ⟨b0, hb0, hb0f, _, hb0none⟩ := hinv.bookingOf _ hmid
  have hb0n : b0.seatId = none := hb0none (fun sid0 h => by simp at h)
  obtain ⟨seatH, hseatHmem, hseatHid, hseatHf, hseatHav⟩ :=
    hinv.holdingSeat _ hmid sid rfl
  have hcm := hcommit
  unfold commitTx at hcm
  cases hu : updateSeatUnavailable db sid with
  | error e => rw [hu] at hcm; cases hcm
  | ok db1 =>
    rw [hu] at hcm
    dsimp only at hcm
    obtain ⟨hu1, hu2, _⟩ := updateSeatUnavailable_ok hu
    obtain ⟨hw1, hw2, _, _, hwno⟩ := updateBookingSeat_ok hcm
    have hseats' : db'.seats = flipSeatUnavailable db.seats sid := by rw [hw2, hu1]
    have hbooks' : db'.bookings = db.bookings.map (bindUpd pnr sid) := by rw [hw1, hu2]
    have hfb' := findBooking_of_bindUpd hbooks'
    have hpnrmid : ∀ q ∈ l₁ ++ l₂, q.pnr ≠ pnr := fun q hq =>
      middle_pnr_not_elsewhere hinv.procPnrs q hq
    have hflipfact : (seatH.flightId == f && seatH.isAvailable) = true := by
      rw [hseatHf, hseatHav]
      simp
    have hav' : availCount db' f + 1 = availCount db f := by
      have hflip := availCount_flip_list hinv.seatids hseatHmem hseatHid hflipfact
      show (seatsPool db' f).length + 1 = (seatsPool db f).length
      unfold seatsPool
      rw [hseats']
      exact hflip
    refine ⟨?_, ?_, ?_, ?_, ?_, ?_, ?_, ?_, ?_, ?_⟩
    · show SeatIdsNodup db'
      unfold SeatIdsNodup
      rw [hseats', flip_ids]
      exact hinv.seatids
    · show PnrsNodup db'
      unfold PnrsNodup
      rw [hbooks', map_bindUpd_pnrs]
      exact hinv.pnrs
    · exact atMostOne_after_bind (pnrsNodup_of_bookings_eq hu2 hinv.pnrs)
        (atMostOne_of_bookings_eq hu2 hinv.dbBound) hcm
    · intro x hx st hst hxs
      rw [hbooks'] at hx
      obtain ⟨x0, hx0, hxeq⟩ := List.mem_map.mp hx
      rw [hseats'] at hst
      unfold flipSeatUnavailable at hst
      obtain ⟨u, hu0, hueq⟩ := List.mem_map.mp hst
      by_cases huid : (u.id == sid) = true
      · rw [if_pos huid] at hueq
        rw [← hueq]
      · rw [if_neg huid] at hueq
        subst hueq
        by_cases hxp : (x0.pnr == pnr) = true
        · rw [← hxeq, bindUpd_eq_of_pnr hxp] at hxs
          simp only [Option.some.injEq] at hxs
          exact absurd (beq_iff_eq.mpr hxs.symm) huid
        · rw [← hxeq, bindUpd_of_ne (by simpa using hxp)] at hxs
          exact hinv.boundUnavail x0 hx0 u hu0 hxs
    · simpa using hinv.procPnrs
    · intro p hp
      rcases List.mem_append.mp hp with hpl | hpr
      · obtain ⟨bq, hbq, hbqf, hbqb, hbqn⟩ := hinv.bookingOf p (List.mem_append_left _ hpl)
        have hqne : p.pnr ≠ pnr := hpnrmid p (List.mem_append_left _ hpl)
        have hbq2 : db.bookings.find? (fun y => y.pnr == p.pnr) = some bq := hbq
        have hbqpnr := List.find?_some hbq2
        have hbqne : (bq.pnr == pnr) = false := by
          rw [beq_eq_false_iff_ne]
          rw [beq_iff_eq] at hbqpnr
          rw [hbqpnr]
          exact hqne
        refine ⟨bq, ?_, hbqf, hbqb, hbqn⟩
        rw [hfb' p.pnr, hbq, Option.map_some', bindUpd_of_ne hbqne]
      · rcases List.mem_cons.mp hpr with hpm | hpl₂
        · subst hpm
          have hb02 : db.bookings.find? (fun y => y.pnr == pnr) = some b0 := hb0
          have hbpnr := List.find?_some hb02
          refine ⟨bindUpd pnr sid b0, ?_, ?_, ?_, ?_⟩
          · rw [hfb' pnr, hb0, Option.map_some']
          · rw [bindUpd_flightId]
            exact hb0f
          · intro sid0 h
            have h' : Phase.bound sid = Phase.bound sid0 := h
            injection h' with h2
            subst h2
            rw [bindUpd_eq_of_pnr hbpnr]
          · intro hno
            exact absurd rfl (hno sid)
        · obtain ⟨bq, hbq, hbqf, hbqb, hbqn⟩ := hinv.bookingOf p
            (List.mem_append_right _ (List.mem_cons_of_mem _ hpl₂))
          have hqne : p.pnr ≠ pnr := hpnrmid p (List.mem_append_right _ hpl₂)
          have hbq2 : db.bookings.find? (fun y => y.pnr == p.pnr) = some bq := hbq
          have hbqpnr := List.find?_some hbq2
          have hbqne : (bq.pnr == pnr) = false := by
            rw [beq_eq_false_iff_ne]
            rw [beq_iff_eq] at hbqpnr
            rw [hbqpnr]
            exact hqne
          refine ⟨bq, ?_, hbqf, hbqb, hbqn⟩
          rw [hfb' p.pnr, hbq, Option.map_some', bindUpd_of_ne hbqne]
    · intro p hp sid0 hph
      have hpo : p ∈ l₁ ++ l₂ := by
        rcases List.mem_append.mp hp with h | h
        · exact List.mem_append_left _ h
        · rcases List.mem_cons.mp h with hm | h2
          · subst hm
            simp at hph
          · exact List.mem_append_right _ h2
      have hpold : p ∈ l₁ ++ ⟨pnr, Phase.holding sid⟩ :: l₂ := by
        rcases List.mem_append.mp hpo with h | h
        · exact List.mem_append_left _ h
        · exact List.mem_append_right _ (List.mem_cons_of_mem _ h)
      obtain ⟨sq, hsqm, hsqid, hsqf, hsqa⟩ := hinv.holdingSeat p hpold sid0 hph
      have hneq : sid0 ≠ sid := by
        have hall := hinv.sidsNodup
        simp only [allSeatIds_append, allSeatIds_cons_holding] at hall
        rw [nodup_middle] at hall
        intro heq
        apply hall.1
        rw [← heq, ← allSeatIds_append]
        exact mem_allSeatIds.mpr ⟨p, hpo, Or.inl hph⟩
      refine ⟨sq, ?_, hsqid, hsqf, hsqa⟩
      rw [hseats']
      unfold flipSeatUnavailable
      rw [List.mem_map]
      refine ⟨sq, hsqm, ?_⟩
      have hsqne : (sq.id == sid) = false := by
        rw [beq_eq_false_iff_ne, hsqid]
        exact hneq
      rw [if_neg (by rw [hsqne]; simp)]
    · have hall := hinv.sidsNodup
      simp only [allSeatIds_append, allSeatIds_cons_holding] at hall
      simp only [allSeatIds_append, allSeatIds_cons_bound]
      exact hall
    · have hc := hinv.count
      simp only [boundSeatIds_append, boundSeatIds_cons_holding, List.length_append] at hc
      simp only [boundSeatIds_append, boundSeatIds_cons_bound, List.length_append,
        List.length_cons]
      omega
    · rintro ⟨p, hp, hph⟩
      have hpo : p ∈ l₁ ++ l₂ := by
        rcases List.mem_append.mp hp with h | h
        · exact List.mem_append_left _ h
        · rcases List.mem_cons.mp h with hm | h2
          · subst hm
            simp at hph
          · exact List.mem_append_right _ h2
      have hpold : p ∈ l₁ ++ ⟨pnr, Phase.holding sid⟩ :: l₂ := by
        rcases List.mem_append.mp hpo with h | h
        · exact List.mem_append_left _ h
        · exact List.mem_append_right _ (List.mem_cons_of_mem _ h)
      have hold := hinv.failedBound ⟨p, hpold, hph⟩
      simp only [lockedSeatIds_append, lockedSeatIds_cons_holding, List.length_append,
        List.length_cons] at hold
      simp only [lockedSeatIds_append, lockedSeatIds_cons_bound, List.length_append]
      omega

theorem cinv_step_commitErr {f M : Nat} {db : DBState} {l₁ l₂ : List Proc}
    {pnr : String} {sid : Nat} {e : Err}
    (hinv : CInv f M ⟨db, l₁ ++ ⟨pnr, .holding sid⟩ :: l₂⟩)
    (hcommit : commitTx db pnr sid = .error e) : False := by
  have hmid : (⟨pnr, Phase.holding sid⟩ : Proc) ∈ l₁ ++ ⟨pnr, Phase.holding sid⟩ :: l₂ :=
    List.mem_append_right _ (List.mem_cons_self _ _)
  obtain ⟨b0, hb0, _, _, _⟩ := hinv.bookingOf _ hmid
  obtain ⟨seatH, hseatHmem, hseatHid, _, hseatHav⟩ := hinv.holdingSeat _ hmid sid rfl
  have hfs : findSeat db sid = some seatH := by
    have h := findSeat_self hinv.seatids hseatHmem
    rw [hseatHid] at h
    exact h
  have hu : updateSeatUnavailable db sid =
      .ok { db with seats := flipSeatUnavailable db.seats sid } := by
    unfold updateSeatUnavailable
    rw [hfs]
  have hany : (db.bookings.any (fun x => x.pnr != pnr && x.seatId == some sid)) = false := by
    rw [Bool.eq_false_iff]
    intro hc
    obtain ⟨x, hx, hxx⟩ := List.any_eq_true.mp hc
    rw [Bool.and_eq_true] at hxx
    have hxs : x.seatId = some seatH.id := by
      rw [hseatHid]
      simpa using hxx.2
    have h := hinv.boundUnavail x hx seatH hseatHmem hxs
    rw [hseatHav] at h
    cases h
  have hok : ∃ db2, commitTx db pnr sid = .ok db2 := by
    unfold commitTx
    rw [hu]
    dsimp only
    unfold updateBookingSeat
    have hfb1 : findBooking { db with seats := flipSeatUnavailable db.seats sid } pnr =
        some b0 := hb0
    rw [hfb1]
    dsimp only
    rw [if_neg ?_]
    · exact ⟨_, rfl⟩
    · have h2 : ({ db with seats := flipSeatUnavailable db.seats sid } :
          DBState).bookings.any (fun x => x.pnr != pnr && x.seatId == some sid) = false :=
        hany
      rw [h2]
      simp
  obtain ⟨db2, hok2⟩ := hok
  rw [hok2] at hcommit
  cases hcommit

/-- The invariant is preserved by every interleaving step. -/
theorem cinv_step {f M : Nat} {s s' : CState} (hinv : CInv f M s) (hstep : CStep s s') :
    CInv f M s' := by
  cases hstep with
  | lock db l₁ l₂ pnr b seat hfind hsel => exact cinv_step_lock hinv hfind hsel
  | failNoBooking db l₁ l₂ pnr hfind =>
    exact (cinv_step_failNoBooking hinv hfind).elim
  | failPool db l₁ l₂ pnr b hfind hsel => exact cinv_step_failPool hinv hfind hsel
  | commitOk db l₁ l₂ pnr sid db' hcommit => exact cinv_step_commitOk hinv hcommit
  | commitErr db l₁ l₂ pnr sid e hcommit =>
    exact (cinv_step_commitErr hinv hcommit).elim

/-- The invariant holds in every reachable state. -/
theorem cinv_reach {f M : Nat} {s s' : CState} (hinv : CInv f M s) (hreach : CReach s s') :
    CInv f M s' := by
  induction hreach with
  | refl => exact hinv
  | tail hab hbc ih => exact cinv_step ih hbc

/-- An invocation that is committed or failed. -/
def settled (p : Proc) : Bool :=
  match p.phase with
  | .bound _ => true
  | .failed => true
  | _ => false

/-- A state whose invocations are all settled can take no step. -/
theorem terminal_of_settled {s : CState} (h : ∀ p ∈ s.procs, settled p = true) :
    Terminal s := by
  intro s' hstep
  cases hstep with
  | lock db l₁ l₂ pnr b seat hfind hsel =>
    have h2 := h ⟨pnr, .ready⟩ (List.mem_append_right _ (List.mem_cons_self _ _))
    simp [settled] at h2
  | failNoBooking db l₁ l₂ pnr hfind =>
    have h2 := h ⟨pnr, .ready⟩ (List.mem_append_right _ (List.mem_cons_self _ _))
    simp [settled] at h2
  | failPool db l₁ l₂ pnr b hfind hsel =>
    have h2 := h ⟨pnr, .ready⟩ (List.mem_append_right _ (List.mem_cons_self _ _))
    simp [settled] at h2
  | commitOk db l₁ l₂ pnr sid db' hcommit =>
    have h2 := h ⟨pnr, .holding sid⟩ (List.mem_append_right _ (List.mem_cons_self _ _))
    simp [settled] at h2
  | commitErr db l₁ l₂ pnr sid e hcommit =>
    have h2 := h ⟨pnr, .holding sid⟩ (List.mem_append_right _ (List.mem_cons_self _ _))
    simp [settled] at h2

/-- In a terminal state every invocation is committed or failed: a ready or
lock-holding invocation always has a step. -/
theorem phases_of_terminal {s : CState} (hterm : Terminal s) :
    ∀ p ∈ s.procs, (∃ sid, p.phase = .bound sid) ∨ p.phase = .failed := by
  obtain ⟨db, procs⟩ := s
  intro p hp
  obtain ⟨l₁, l₂, hs⟩ := List.append_of_mem hp
  subst hs
  obtain ⟨pnr, ph⟩ := p
  cases ph with
  | bound sid => exact Or.inl ⟨sid, rfl⟩
  | failed => exact Or.inr rfl
  | ready =>
    exfalso
    cases hfb : findBooking db pnr with
    | none => exact hterm _ (CStep.failNoBooking db l₁ l₂ pnr hfb)
    | some b =>
      cases hsel : selectSkipLocked db b.flightId
          (lockedSeatIds (l₁ ++ ⟨pnr, .ready⟩ :: l₂)) with
      | some seat => exact hterm _ (CStep.lock db l₁ l₂ pnr b seat hfb hsel)
      | none => exact hterm _ (CStep.failPool db l₁ l₂ pnr b hfb hsel)
  | holding sid =>
    exfalso
    cases hct : commitTx db pnr sid with
    | ok db2 => exact hterm _ (CStep.commitOk db l₁ l₂ pnr sid db2 hct)
    | error e => exact hterm _ (CStep.commitErr db l₁ l₂ pnr sid e hct)

theorem boundSeatIds_length_eq {ps : List Proc}
    (h : ∀ p ∈ ps, ∃ sid, p.phase = .bound sid) :
    (boundSeatIds ps).length = ps.length := by
  induction ps with
  | nil => rfl
  | cons p ps ih =>
    obtain ⟨pnr, ph⟩ := p
    obtain ⟨sid, hsid⟩ := h ⟨pnr, ph⟩ (List.mem_cons_self _ _)
    have hph : ph = .bound sid := hsid
    subst hph
    rw [boundSeatIds_cons_bound, List.length_cons, List.length_cons,
      ih (fun q hq => h q (List.mem_cons_of_mem _ hq))]

theorem lockedSeatIds_eq_nil {ps : List Proc}
    (h : ∀ p ∈ ps, (∃ sid, p.phase = .bound sid) ∨ p.phase = .failed) :
    lockedSeatIds ps = [] := by
  induction ps with
  | nil => rfl
  | cons p ps ih =>
    obtain ⟨pnr, ph⟩ := p
    have htail := ih (fun q hq => h q (List.mem_cons_of_mem _ hq))
    rcases h ⟨pnr, ph⟩ (List.mem_cons_self _ _) with ⟨sid, hsid⟩ | hf
    · have hph : ph = .bound sid := hsid
      subst hph
      rw [lockedSeatIds_cons_bound, htail]
    · have hph : ph = .failed := hf
      subst hph
      rw [lockedSeatIds_cons_failed, htail]

theorem cstep_procs_length {s s' : CState} (h : CStep s s') :
    s'.procs.length = s.procs.length := by
  cases h <;> simp

theorem creach_procs_length {s s' : CState} (h : CReach s s') :
    s'.procs.length = s.procs.length := by
  induction h with
  | refl => rfl
  | tail hab hbc ih => rw [cstep_procs_length hbc, ih]

/-! ## Claim C1: safety of the safe policy under arbitrary concurrency -/

/-- C1: for N concurrent `selectNextAvailableSeatSafe` invocations — distinct
provisioned requesters on a flight with M available seats — every
interleaving that runs to completion binds exactly `min N M` seats, no seat
twice: the bound seats are pairwise distinct, the ledger's bindings stay
duplicate-free, and each committed invocation's requester really holds its
seat. -/
theorem safe_concurrent_allocation (f : Nat) (s0 s : CState)
    (hinit : InitOK f s0) (hreach : CReach s0 s) (hterm : Terminal s) :
    (boundSeatIds s.procs).length = min s0.procs.length (availCount s0.db f) ∧
    (boundSeatIds s.procs).Nodup ∧
    AtMostOneBinding s.db ∧
    (∀ p ∈ s.procs, ∀ sid, p.phase = .bound sid →
      ∃ b, findBooking s.db p.pnr = some b ∧ b.seatId = some sid) := by
  have hinv := cinv_reach (cinv_init hinit) hreach
  have hphases := phases_of_terminal hterm
  have hlen := creach_procs_length hreach
  have hlock0 : lockedSeatIds s.procs = [] := lockedSeatIds_eq_nil hphases
  refine ⟨?_, ?_, hinv.dbBound, ?_⟩
  · have hc := hinv.count
    by_cases hfail : ∃ p ∈ s.procs, p.phase = .failed
    · have hfb := hinv.failedBound hfail
      rw [hlock0] at hfb
      simp only [List.length_nil, Nat.le_zero] at hfb
      have hDN : (boundSeatIds s.procs).length ≤ s.procs.length :=
        List.length_filterMap_le _ _
      rw [hlen] at hDN
      omega
    · have hall : ∀ p ∈ s.procs, ∃ sid, p.phase = .bound sid := by
        intro p hp
        rcases hphases p hp with h | h
        · exact h
        · exact absurd ⟨p, hp, h⟩ hfail
      have hD := boundSeatIds_length_eq hall
      rw [hD, hlen]
      omega
  · exact List.Nodup.sublist (boundSeatIds_sublist_all s.procs) hinv.sidsNodup
  · intro p hp sid hsid
    obtain ⟨b, hb, _, hbb, _⟩ := hinv.bookingOf p hp
    exact ⟨b, hb, hbb sid hsid⟩

/-- A two-seat, two-requester pool for the concurrency witness. -/
def dbC1W : DBState :=
  ⟨[], [⟨1, 1, "10A", "ECONOMY", true, 100⟩, ⟨2, 1, "10B", "ECONOMY", true, 100⟩],
    [⟨1, "A", 1, 1, none, false, "CONFIRMED"⟩, ⟨2, "B", 1, 2, none, false, "CONFIRMED"⟩]⟩

/-- `dbC1W` after requester `A`'s transaction committed seat 1. -/
def dbC1W3 : DBState :=
  ⟨[], [⟨1, 1, "10A", "ECONOMY", false, 100⟩, ⟨2, 1, "10B", "ECONOMY", true, 100⟩],
    [⟨1, "A", 1, 1, some 1, true, "CONFIRMED"⟩, ⟨2, "B", 1, 2, none, false, "CONFIRMED"⟩]⟩

/-- `dbC1W3` after requester `B`'s transaction committed seat 2. -/
def dbC1W4 : DBState :=
  ⟨[], [⟨1, 1, "10A", "ECONOMY", false, 100⟩, ⟨2, 1, "10B", "ECONOMY", false, 100⟩],
    [⟨1, "A", 1, 1, some 1, true, "CONFIRMED"⟩, ⟨2, "B", 1, 2, some 2, true, "CONFIRMED"⟩]⟩

/-- Initial concurrent state: both invocations ready. -/
def sC1start : CState := ⟨dbC1W, [⟨"A", .ready⟩, ⟨"B", .ready⟩]⟩

/-- Final concurrent state: both invocations committed. -/
def sC1final : CState := ⟨dbC1W4, [⟨"A", .bound 1⟩, ⟨"B", .bound 2⟩]⟩

/-- C1 witness: a concrete interleaving of two concurrent safe invocations —
both lock before either commits — ends with `min 2 2 = 2` distinct seats
bound and a duplicate-free ledger. -/
theorem safe_concurrent_allocation_witness :
    (boundSeatIds sC1final.procs).length =
      min sC1start.procs.length (availCount sC1start.db 1) ∧
    (boundSeatIds sC1final.procs).Nodup ∧
    AtMostOneBinding sC1final.db ∧
    (∀ p ∈ sC1final.procs, ∀ sid, p.phase = .bound sid →
      ∃ b, findBooking sC1final.db p.pnr = some b ∧ b.seatId = some sid) := by
  have st1 : CStep sC1start ⟨dbC1W, [⟨"A", .holding 1⟩, ⟨"B", .ready⟩]⟩ :=
    CStep.lock dbC1W [] [⟨"B", .ready⟩] "A" ⟨1, "A", 1, 1, none, false, "CONFIRMED"⟩
      ⟨1, 1, "10A", "ECONOMY", true, 100⟩ rfl rfl
  have st2 : CStep ⟨dbC1W, [⟨"A", .holding 1⟩, ⟨"B", .ready⟩]⟩
      ⟨dbC1W, [⟨"A", .holding 1⟩, ⟨"B", .holding 2⟩]⟩ :=
    CStep.lock dbC1W [⟨"A", .holding 1⟩] [] "B" ⟨2, "B", 1, 2, none, false, "CONFIRMED"⟩
      ⟨2, 1, "10B", "ECONOMY", true, 100⟩ rfl rfl
  have st3 : CStep ⟨dbC1W, [⟨"A", .holding 1⟩, ⟨"B", .holding 2⟩]⟩
      ⟨dbC1W3, [⟨"A", .bound 1⟩, ⟨"B", .holding 2⟩]⟩ :=
    CStep.commitOk dbC1W [] [⟨"B", .holding 2⟩] "A" 1 dbC1W3 rfl
  have st4 : CStep ⟨dbC1W3, [⟨"A", .bound 1⟩, ⟨"B", .holding 2⟩]⟩ sC1final :=
    CStep.commitOk dbC1W3 [⟨"A", .bound 1⟩] [] "B" 2 dbC1W4 rfl
  exact safe_concurrent_allocation 1 sC1start sC1final (by decide)
    (Relation.ReflTransGen.tail (Relation.ReflTransGen.tail (Relation.ReflTransGen.tail
      (Relation.ReflTransGen.tail Relation.ReflTransGen.refl st1) st2) st3) st4)
    (terminal_of_settled (by decide))

end AirlineCheckin
